import Mathlib

/-!
# Verification of the pyFLUKAgeo geometry engine

Shallow embedding, in Lean 4, of the core of the `pyFLUKAgeo` package
(`region.py`, `geometry.py`, `grid.py`, `myMath.py`) together with proofs
about it.

Modelling conventions:
* Python strings are modelled as `List Char` (`Str`), and the string
  operations used by the code (`split`, `strip`, `splitlines`, `replace`,
  `%`-padding) are re-implemented below with Python semantics.
* Python floats are modelled as exact numbers: the coordinate arithmetic of
  the grid/hive generators (which is pure field arithmetic) over `ℚ`, and
  the trigonometric data (rotation matrices, grid points) over `ℝ`.
  `np.linalg.norm(v) < prec` is embedded as the equivalent comparison
  `normSq v < prec^2` of squares (both sides are non-negative).
* Python fatal failures (`exit(1)`, `NameError`, `IndexError`,
  `AttributeError`) are modelled with an `Except PyErr` result; the message
  text printed on `stdout` before `exit(1)` is not modelled.
* Comment strings that embed `%g`-formatted floating-point numbers
  (display-only audit text of the hive generator) are not reproduced
  character by character; comment strings built from names and integers
  (which flow into region definitions during `merge`) are reproduced
  exactly.
-/

/-- Python run-time failure conditions: `exit(code)`, an unbound name
(`NameError`), an out-of-range index (`IndexError`), and a method call on
`None` (`AttributeError`). -/
inductive PyErr where
  | exitCode (code : Nat)
  | nameError (name : List Char)
  | indexError
  | attributeError
  deriving Repr, DecidableEq

/-- Python strings are modelled as lists of characters. -/
abbrev Str := List Char

/-- Whitespace characters stripped by Python `str.strip()` / split by
`str.split()` (the subset that can actually occur in this code base). -/
def isPySpace (c : Char) : Bool :=
  c = ' ' ∨ c = '\n' ∨ c = '\t' ∨ c = '\r'

/-- Remove leading whitespace (Python `lstrip`). -/
def lstrip (s : Str) : Str := s.dropWhile isPySpace

/-- Remove leading and trailing whitespace (Python `str.strip()`). -/
def pstrip (s : Str) : Str := (lstrip ((lstrip s).reverse)).reverse

/-- Split a string at every character satisfying `p`, keeping empty pieces —
Python `str.split(sep)` with a one-character separator.  The result is
never empty. -/
def splitOnP (p : Char → Bool) : Str → List Str
  | [] => [[]]
  | c :: cs =>
    if p c then
      [] :: splitOnP p cs
    else
      match splitOnP p cs with
      | [] => [[c]]
      | h :: t => (c :: h) :: t

/-- Python `s.split("|")`. -/
def splitBar (s : Str) : List Str := splitOnP (fun c => c = '|') s

/-- Python `s.split()` (no argument): tokens separated by whitespace runs,
with no empty tokens. -/
def splitWS (s : Str) : List Str :=
  (splitOnP isPySpace s).filter (fun t => t ≠ [])

/-- Python `str.splitlines()` (for `\n`-separated text): split at every
newline, except that a trailing newline does not produce a final empty
line. -/
def splitlines (s : Str) : List Str :=
  if s = [] then []
  else if s.getLast? = some '\n' then (splitOnP (fun c => c = '\n') s).dropLast
  else splitOnP (fun c => c = '\n') s

/-- Is `pat` a prefix of `s`? (mirrors Python's slice comparison used by
`str.replace` and `str.startswith`). -/
def leadsWith : Str → Str → Bool
  | [], _ => true
  | _ :: _, [] => false
  | a :: as_, b :: bs => a = b && leadsWith as_ bs

/-- Does `pat` occur as a contiguous substring of `s` (Python `pat in s`,
`str.find(pat) > -1`)? -/
def occursIn (pat : Str) : Str → Bool
  | [] => leadsWith pat []
  | c :: cs => leadsWith pat (c :: cs) || occursIn pat cs

/-- Scanning loop of Python `s.replace(old, new)` for non-empty `old`,
with enough fuel (`s.length`) to terminate: at each position either the
pattern matches (emit `new`, skip the match) or the head character is
copied. -/
def pyReplaceAux (fuel : Nat) (s old new : Str) : Str :=
  match fuel, s with
  | _, [] => []
  | 0, s => s
  | fuel + 1, c :: cs =>
    if leadsWith old (c :: cs) then
      new ++ pyReplaceAux fuel ((c :: cs).drop old.length) old new
    else
      c :: pyReplaceAux fuel cs old new

/-- Python `s.replace(old, new)`: replace every (leftmost, non-overlapping)
occurrence of `old` by `new`; with `old = ""` Python inserts `new` before
every character and at the end. -/
def pyReplace (s old new : Str) : Str :=
  if old = [] then
    new ++ s.flatMap (fun c => c :: new)
  else pyReplaceAux s.length s old new

/-- Most-significant-first decimal digits, with enough fuel to terminate
structurally (so that it evaluates inside the kernel). -/
def natCharsAux : Nat → Nat → Str
  | 0, _ => []
  | _ + 1, 0 => []
  | fuel + 1, n + 1 =>
    natCharsAux fuel ((n + 1) / 10) ++ [Nat.digitChar ((n + 1) % 10)]

/-- Decimal digit characters of a natural number (Python `"%d" % n`). -/
def natChars (n : Nat) : Str :=
  if n = 0 then ['0'] else natCharsAux n n

/-- Python `"%0Nd" % k`: decimal digits of `k`, left-padded with zeros to
width `width` (longer numbers are not truncated). -/
def zeroPad (width : Nat) (k : Nat) : Str :=
  let s := natChars k
  List.replicate (width - s.length) '0' ++ s

/-- Python `"%-Ns" % s`: left-justify in a field of `width` blanks (longer
strings are not truncated). -/
def padRight (width : Nat) (s : Str) : Str :=
  s ++ List.replicate (width - s.length) ' '

section StrLemmas

theorem splitOnP_ne_nil (p : Char → Bool) (s : Str) : splitOnP p s ≠ [] := by
  cases s with
  | nil => simp [splitOnP]
  | cons c cs =>
    simp only [splitOnP]
    split
    · simp
    · split <;> simp

/-- Every character inside any piece produced by `splitOnP p` fails `p`. -/
theorem splitOnP_piece_no_sep (p : Char → Bool) (s : Str) :
    ∀ piece ∈ splitOnP p s, ∀ c ∈ piece, ¬ p c := by
  induction s with
  | nil =>
    intro piece hp c hc
    simp [splitOnP] at hp
    subst hp
    simp at hc
  | cons a as ih =>
    intro piece hp c hc
    rcases hsp : splitOnP p as with _ | ⟨h0, t0⟩
    · exact absurd hsp (splitOnP_ne_nil p as)
    · simp only [splitOnP, hsp] at hp
      cases hpa : p a with
      | true =>
        simp only [hpa, if_true] at hp
        rcases List.mem_cons.mp hp with hp | hp
        · subst hp; simp at hc
        · exact ih piece (by rw [hsp]; exact hp) c hc
      | false =>
        simp only [hpa, Bool.false_eq_true, if_false] at hp
        rcases List.mem_cons.mp hp with hp | hp
        · subst hp
          rcases List.mem_cons.mp hc with hc | hc
          · subst hc; simp [hpa]
          · exact ih h0 (by rw [hsp]; exact List.mem_cons_self _ _) c hc
        · exact ih piece (by rw [hsp]; exact List.mem_cons_of_mem _ hp) c hc

end StrLemmas

/-! ## The entity model of `geometry.py`

`GeoObject`'s name/comment handling is inlined into each entity structure
(Python uses inheritance).  Numeric attributes that only ever undergo field
arithmetic are modelled over `ℝ` (Python floats are real values). -/

/-- 3D float arrays (`np.array` of length 3). -/
abbrev Vec3R := ℝ × ℝ × ℝ

/-- Componentwise difference of two 3D arrays. -/
def vsub (a b : Vec3R) : Vec3R := (a.1 - b.1, a.2.1 - b.2.1, a.2.2 - b.2.2)

/-- The squared Euclidean norm of a 3D array.  `np.linalg.norm(v) < prec`
is embedded as `normSq v < prec^2`, which is equivalent because both sides
of the original comparison are non-negative. -/
def normSq (v : Vec3R) : ℝ := v.1 ^ 2 + v.2.1 ^ 2 + v.2.2 ^ 2

/-- `GeoObject.tailMe` on a raw comment string: append a line to a
free-text comment. -/
def tailStr (comm s : Str) : Str :=
  if comm = [] then s else comm ++ '\n' :: s

/-- FLUKA region (`geometry.py`, class `Region`): a name, a comment log, a
union-of-zones definition text, a material, the neighbour hint and the
containment metadata (`initCont`).  `region.py`'s variant of the class
carries two extra lattice fields not used by the merge pipeline. -/
structure Region where
  name : Str
  comment : Str
  neigh : ℚ
  definition : Str
  material : Str
  rCont : Int
  rCent : Vec3R
  rMaxLen : ℝ

/-- `Region()` constructor defaults (name set via `rename(lNotify=False)`). -/
def Region.mk0 (myName : Str) : Region :=
  { name := myName, comment := [], neigh := 5, definition := [],
    material := "BLACKHOLE".toList, rCont := 0, rCent := (0, 0, 0), rMaxLen := 0 }

/-- `GeoObject.tailMe`. -/
def Region.tailMe (r : Region) (s : Str) : Region :=
  { r with comment := tailStr r.comment s }

/-- `GeoObject.rename`: optionally log the change, then set the name. -/
def Region.rename (r : Region) (newName : Str) (lNotify : Bool) : Region :=
  let r1 := if lNotify then
      r.tailMe ("* NAME CHANGE: FROM ".toList ++ r.name ++ " TO ".toList ++ newName)
    else r
  { r1 with name := newName }

/-- `Region.initCont` with explicit arguments. -/
def Region.initContW (r : Region) (rCont : Int) (rCent : Vec3R) (rMaxLen : ℝ) : Region :=
  { r with rCont := rCont, rCent := rCent, rMaxLen := rMaxLen }

/-- `Region.initCont()` with its default arguments (as called by `merge`). -/
def Region.initCont (r : Region) : Region := r.initContW 0 (0, 0, 0) 0

/-- `Region.isNonEmpty`. -/
def Region.isNonEmpty (r : Region) : Bool := r.definition.length > 0

/-- `Region.assignMat`. -/
def Region.assignMat (r : Region) (m : Str) : Region := { r with material := m }

/-- `Region.addZone`: append a disjunct; the first zone needs no `|`
marker, later ones are placed on a fresh line behind `nSpace` blanks. -/
def Region.addZone (r : Region) (myDef : Str) (nSpace : Nat) : Region :=
  if r.isNonEmpty then
    let d0 := if ¬ r.definition.contains '|' then
        '|' :: ' ' :: r.definition
      else r.definition
    { r with definition := d0 ++ '\n' :: (List.replicate nSpace ' ' ++ ('|' :: ' ' :: myDef)) }
  else
    { r with definition := myDef }

/-- `Region.BodyNameReplaceInDef`: sequential textual find/replace of each
old body name by the corresponding new one in the definition. -/
def Region.bodyNameReplaceInDef (r : Region) (oldNames newNames : List Str) : Region :=
  { r with definition :=
      (oldNames.zip newNames).foldl (fun d pr => pyReplace d pr.1 pr.2) r.definition }

/-- The guard `if (self.isNonEmpty):` of `Region.retBodiesInDef` tests the
*bound method object* itself (it is not called), and a bound method is
always truthy in Python: the guard never takes the `else` branch.  This
constant models that truthiness. -/
def isNonEmptyMethodTruthy (_ : Region) : Bool := true

/-- `Region.retBodiesInDef`: collect the distinct body names referenced in
the definition, skipping comment lines, treating `|`, `+`, `-` as blanks.
The `Region ... is empty!`/`exit(1)` branch is kept, but it is guarded by
the always-true method-object test (see `isNonEmptyMethodTruthy`). -/
def Region.retBodiesInDef (r : Region) : Except PyErr (List Str) :=
  if isNonEmptyMethodTruthy r then
    .ok ((splitlines r.definition).foldl (fun acc line =>
      if leadsWith ['*'] line then acc
      else
        let tmp := pyReplace (pyReplace (pyReplace line ['|'] [' ']) ['+'] [' ']) ['-'] [' ']
        (splitWS (pstrip tmp)).foldl (fun acc2 b =>
          let tb := pstrip b
          if tb ∈ acc2 then acc2 else acc2 ++ [tb]) acc) [])
  else
    .error (.exitCode 1)

/-! ### `Region.merge` (`geometry.py`, lines 358-387)

The double loop over the `|`-separated pieces of the two definitions is
written as two recursive loop functions threading the mutable state
`(self.comment, mergedDef, lFirst)`.  (`region.py`'s copy of `merge` adds
one special case, taken only when `self.definition` is the empty string,
that copies the other definition verbatim; the two copies agree whenever
`self` has a non-empty definition.) -/

/-- `"* merging zone %s:%d into %s:%d" % (nName, j, sName, i)`. -/
def mergeComment (nName : Str) (j : Nat) (sName : Str) (i : Nat) : Str :=
  "* merging zone ".toList ++ nName ++ ':' :: natChars j ++
    " into ".toList ++ sName ++ ':' :: natChars i

/-- `"| %s %s" % (s, t)`. -/
def barSeg (s t : Str) : Str := '|' :: ' ' :: (s ++ ' ' :: t)

/-- The default `spacing` argument of `merge` (16 blanks). -/
def spacing16 : Str := List.replicate 16 ' '

/-- Inner loop of `merge`: one stripped non-empty zone `s` of `self`
(0-based piece index `i`) against all pieces of `newReg`'s definition. -/
def mergeLoopInner (sName nName : Str) (i : Nat) (s : Str) :
    List (Nat × Str) → Str × Str × Bool → Str × Str × Bool
  | [], st => st
  | (j, t) :: rest, (comm, acc, lFirst) =>
    let stt := pstrip t
    if stt = [] then
      mergeLoopInner sName nName i s rest (comm, acc, lFirst)
    else
      let cmt := mergeComment nName (j + 1) sName (i + 1)
      if lFirst then
        mergeLoopInner sName nName i s rest (tailStr comm cmt, barSeg s stt, false)
      else
        mergeLoopInner sName nName i s rest
          (comm, acc ++ '\n' :: cmt ++ '\n' :: (spacing16 ++ barSeg s stt), false)

/-- Outer loop of `merge`: over the pieces of `self`'s definition. -/
def mergeLoopOuter (sName nName : Str) (ts : List (Nat × Str)) :
    List (Nat × Str) → Str × Str × Bool → Str × Str × Bool
  | [], st => st
  | (i, z) :: rest, st =>
    let sz := pstrip z
    if sz = [] then
      mergeLoopOuter sName nName ts rest st
    else
      mergeLoopOuter sName nName ts rest (mergeLoopInner sName nName i sz ts st)

/-- `Region.merge(newReg)`: log the merge, cross-multiply the zones of the
two definitions, add the neighbour hints and reset the containment
metadata (`initCont`). -/
def Region.merge (self newReg : Region) : Region :=
  let r1 := self.tailMe ("* --> merged with region ".toList ++ newReg.name ++ " <--".toList)
  let r2 := if newReg.comment.length > 0 then r1.tailMe newReg.comment else r1
  let st := mergeLoopOuter self.name newReg.name (splitBar newReg.definition).enum
    (splitBar self.definition).enum (r2.comment, [], true)
  let newComm := st.1
  let mergedDef := st.2.1
  Region.initCont { r2 with
    comment := newComm
    definition := mergedDef
    neigh := self.neigh + newReg.neigh }

/-! ## Zone counting (claim C1) -/

/-- The `|`-separated disjuncts ("zones") of a region definition text,
enumerated the same way `merge` does: split at `|`, strip each piece, drop
the empty ones. -/
def zonesOf (d : Str) : List Str :=
  ((splitBar d).map pstrip).filter (fun z => z ≠ [])

/-- Number of non-empty stripped pieces in a list of raw pieces. -/
def nzCount (l : List Str) : Nat :=
  ((l.map pstrip).filter (fun z => z ≠ [])).length

/-- Number of zones of a definition text. -/
def zcount (d : Str) : Nat := nzCount (splitBar d)

/-- `s` contains no `|` character. -/
def noBar (s : Str) : Prop := ∀ c ∈ s, c ≠ '|'

/-- The last `|`-piece of `d` has a non-empty strip. -/
def lastOK (d : Str) : Prop := pstrip ((splitBar d).getLastD []) ≠ []

/-- Prepend a string to the head of a piece list. -/
def glueHead (x : Str) : List Str → List Str
  | [] => [x]
  | h :: t => (x ++ h) :: t

section ZoneLemmas

theorem splitOnP_cons_pos (p : Char → Bool) (c : Char) (cs : Str) (h : p c = true) :
    splitOnP p (c :: cs) = [] :: splitOnP p cs := by
  simp [splitOnP, h]

theorem splitOnP_cons_neg (p : Char → Bool) (c : Char) (cs : Str) (h : p c = false) :
    splitOnP p (c :: cs) =
      match splitOnP p cs with
      | [] => [[c]]
      | h0 :: t0 => (c :: h0) :: t0 := by
  simp [splitOnP, h]

/-- Splitting a concatenation: all pieces of `a` but the last, then the
last piece of `a` glued onto the first piece of `b`. -/
theorem splitOnP_append (p : Char → Bool) (a b : Str) :
    splitOnP p (a ++ b) =
      (splitOnP p a).dropLast ++ glueHead ((splitOnP p a).getLastD []) (splitOnP p b) := by
  induction a with
  | nil =>
    rcases hb : splitOnP p b with _ | ⟨h0, t0⟩
    · exact absurd hb (splitOnP_ne_nil p b)
    · simp [splitOnP, glueHead, hb]
  | cons c cs ih =>
    rcases hcs : splitOnP p cs with _ | ⟨h0, t0⟩
    · exact absurd hcs (splitOnP_ne_nil p cs)
    · cases hpc : p c with
      | true =>
        rw [List.cons_append, splitOnP_cons_pos p c _ hpc, splitOnP_cons_pos p c _ hpc, ih, hcs]
        rcases hcb : splitOnP p (cs ++ b) with _ | ⟨g0, g1⟩
        · exact absurd hcb (splitOnP_ne_nil p _)
        · simp [List.getLastD_cons]
      | false =>
        rw [List.cons_append, splitOnP_cons_neg p c _ hpc, splitOnP_cons_neg p c _ hpc, ih, hcs]
        rcases ht0 : t0 with _ | ⟨t1, t2⟩
        · simp [glueHead]
          rcases hb : splitOnP p b with _ | ⟨b0, b1⟩
          · exact absurd hb (splitOnP_ne_nil p b)
          · simp [List.getLastD_cons]
        · simp [glueHead, List.getLastD_cons]

theorem nzCount_append (l1 l2 : List Str) :
    nzCount (l1 ++ l2) = nzCount l1 + nzCount l2 := by
  simp [nzCount, List.filter_append]

theorem nzCount_cons (x : Str) (l : List Str) :
    nzCount (x :: l) = (if pstrip x = [] then 0 else 1) + nzCount l := by
  by_cases h : pstrip x = [] <;> simp [nzCount, List.filter_cons, h, Nat.add_comm]

end ZoneLemmas

section StripLemmas

theorem lstrip_cases (l : Str) :
    lstrip l = [] ∨ ∃ c t, lstrip l = c :: t ∧ ¬ isPySpace c := by
  induction l with
  | nil => left; rfl
  | cons a l ih =>
    by_cases ha : isPySpace a
    · simpa [lstrip, List.dropWhile, ha] using ih
    · right
      exact ⟨a, l, by simp [lstrip, List.dropWhile, ha], ha⟩

theorem pstrip_eq_nil_iff (s : Str) : pstrip s = [] ↔ ∀ c ∈ s, isPySpace c := by
  unfold pstrip lstrip
  rw [List.reverse_eq_nil_iff, List.dropWhile_eq_nil_iff]
  constructor
  · intro h c hc
    by_cases hmem : c ∈ s.dropWhile isPySpace
    · exact h c (by simpa using hmem)
    · have hsplit : s = s.takeWhile isPySpace ++ s.dropWhile isPySpace :=
        (List.takeWhile_append_dropWhile ..).symm
      rw [hsplit] at hc
      rcases List.mem_append.mp hc with hc | hc
      · exact List.mem_takeWhile_imp hc
      · exact absurd hc hmem
  · intro h c hc
    exact h c ((List.dropWhile_sublist _).subset (by simpa using hc))

theorem pstrip_ne_nil_of_mem (s : Str) {c : Char} (hc : c ∈ s) (hns : ¬ isPySpace c) :
    pstrip s ≠ [] := by
  intro h
  exact hns ((pstrip_eq_nil_iff s).mp h c hc)

theorem pstrip_append_ne_nil (a b : Str) (hb : pstrip b ≠ []) :
    pstrip (a ++ b) ≠ [] := by
  rw [Ne, pstrip_eq_nil_iff] at hb ⊢
  push_neg at hb ⊢
  obtain ⟨c, hc, hcs⟩ := hb
  exact ⟨c, List.mem_append_right a hc, hcs⟩

theorem mem_pstrip {c : Char} (s : Str) (hc : c ∈ pstrip s) : c ∈ s := by
  unfold pstrip lstrip at hc
  rw [List.mem_reverse] at hc
  have h1 := (List.dropWhile_sublist _ (l := (s.dropWhile isPySpace).reverse)).subset hc
  rw [List.mem_reverse] at h1
  exact (List.dropWhile_sublist _ (l := s)).subset h1

theorem pstrip_ne_nil_ink (z : Str) (h : pstrip z ≠ []) :
    ∃ c ∈ pstrip z, ¬ isPySpace c := by
  have hrev : lstrip ((lstrip z).reverse) ≠ [] := by
    intro hx
    apply h
    unfold pstrip
    rw [hx]
    rfl
  rcases lstrip_cases ((lstrip z).reverse) with hx | ⟨c, t, hx, hcs⟩
  · exact absurd hx hrev
  · refine ⟨c, ?_, hcs⟩
    show c ∈ pstrip z
    unfold pstrip
    rw [hx, List.mem_reverse]
    exact List.mem_cons_self _ _

end StripLemmas

section BarLemmas

theorem barP_iff (c : Char) : (fun c => decide (c = '|')) c = false ↔ c ≠ '|' := by
  simp

theorem splitOnP_single (p : Char → Bool) (s : Str) (h : ∀ c ∈ s, p c = false) :
    splitOnP p s = [s] := by
  induction s with
  | nil => rfl
  | cons c cs ih =>
    have hc : p c = false := h c (List.mem_cons_self _ _)
    rw [splitOnP_cons_neg p c cs hc, ih (fun d hd => h d (List.mem_cons_of_mem _ hd))]

theorem splitBar_noBar (s : Str) (h : noBar s) : splitBar s = [s] := by
  apply splitOnP_single
  intro c hc
  simpa using h c hc

theorem splitBar_noBar_append (x y : Str) (hx : noBar x) :
    splitBar (x ++ '|' :: y) = x :: splitBar y := by
  show splitOnP _ (x ++ '|' :: y) = x :: splitOnP _ y
  rw [splitOnP_append]
  rw [show splitOnP (fun c => decide (c = '|')) x = [x] from splitBar_noBar x hx]
  rw [splitOnP_cons_pos _ '|' y (by simp)]
  simp [glueHead]

end BarLemmas

section MergeCountLemmas

theorem noBar_append {a b : Str} (ha : noBar a) (hb : noBar b) : noBar (a ++ b) := by
  intro c hc
  rcases List.mem_append.mp hc with h | h
  · exact ha c h
  · exact hb c h

theorem noBar_cons {c : Char} {t : Str} (hc : c ≠ '|') (ht : noBar t) : noBar (c :: t) := by
  intro d hd
  rcases List.mem_cons.mp hd with h | h
  · exact h ▸ hc
  · exact ht d h

theorem noBar_pstrip {s : Str} (hs : noBar s) : noBar (pstrip s) :=
  fun c hc => hs c (mem_pstrip s hc)

theorem noBar_replicate (n : Nat) : noBar (List.replicate n ' ') := by
  intro c hc
  rw [List.eq_of_mem_replicate hc]
  decide

theorem natCharsAux_noBar (fuel n : Nat) : noBar (natCharsAux fuel n) := by
  induction fuel generalizing n with
  | zero => intro c hc; simp [natCharsAux] at hc
  | succ fuel ih =>
    intro c hc
    cases n with
    | zero => simp [natCharsAux] at hc
    | succ m =>
      simp only [natCharsAux] at hc
      rcases List.mem_append.mp hc with h | h
      · exact ih _ c h
      · rcases List.mem_singleton.mp h with rfl
        have h10 : (m + 1) % 10 < 10 := Nat.mod_lt _ (by norm_num)
        set d := (m + 1) % 10 with hd
        clear_value d
        interval_cases d <;> decide

theorem natChars_noBar (n : Nat) : noBar (natChars n) := by
  intro c hc
  unfold natChars at hc
  by_cases h : n = 0
  · rw [if_pos h] at hc
    rcases List.mem_singleton.mp hc with rfl
    decide
  · rw [if_neg h] at hc
    exact natCharsAux_noBar n n c hc

theorem mergeComment_noBar {nName sName : Str} (hn : noBar nName) (hs : noBar sName)
    (j i : Nat) : noBar (mergeComment nName j sName i) := by
  have hA : noBar "* merging zone ".toList := by unfold noBar; decide
  have hB : noBar " into ".toList := by unfold noBar; decide
  have hcol : (':' : Char) ≠ '|' := by decide
  unfold mergeComment
  exact noBar_append
    (noBar_append
      (noBar_append (noBar_append (noBar_append hA hn) (noBar_cons hcol (natChars_noBar j))) hB)
      hs)
    (noBar_cons hcol (natChars_noBar i))

theorem mergeComment_ink (nName : Str) (j : Nat) (sName : Str) (i : Nat) :
    ∃ c ∈ mergeComment nName j sName i, ¬ isPySpace c := by
  have hA : '*' ∈ "* merging zone ".toList := by decide
  refine ⟨'*', ?_, by decide⟩
  unfold mergeComment
  exact List.mem_append_left _ (List.mem_append_left _ (List.mem_append_left _
    (List.mem_append_left _ (List.mem_append_left _ hA))))

theorem eq_dropLast_append_getLastD {α : Type} (l : List α) (hl : l ≠ []) (d : α) :
    l = l.dropLast ++ [l.getLastD d] := by
  conv_lhs => rw [← List.dropLast_append_getLast hl]
  rw [List.getLastD_eq_getLast?, List.getLast?_eq_getLast l hl]
  rfl

theorem zcount_nil : zcount [] = 0 := by decide

theorem zcount_barSeg (s t : Str) (hs : noBar s) (ht : noBar t)
    (hink : ∃ c ∈ s, ¬ isPySpace c) :
    zcount (barSeg s t) = 1 ∧ lastOK (barSeg s t) := by
  have hpost : noBar (' ' :: (s ++ ' ' :: t)) :=
    noBar_cons (by decide) (noBar_append hs (noBar_cons (by decide) ht))
  have hsplit : splitBar (barSeg s t) = [[], ' ' :: (s ++ ' ' :: t)] := by
    show splitOnP _ ('|' :: (' ' :: (s ++ ' ' :: t))) = _
    rw [splitOnP_cons_pos _ '|' _ (by simp)]
    rw [show splitOnP (fun c => decide (c = '|')) (' ' :: (s ++ ' ' :: t)) = _ from
      splitBar_noBar _ hpost]
  obtain ⟨c, hc, hcs⟩ := hink
  have hstrip : pstrip (' ' :: (s ++ ' ' :: t)) ≠ [] :=
    pstrip_ne_nil_of_mem _ (by simp [hc]) hcs
  have h0 : pstrip ([] : Str) = [] := rfl
  constructor
  · show nzCount _ = 1
    rw [hsplit, nzCount_cons, nzCount_cons, if_pos h0, if_neg hstrip]
    simp [nzCount]
  · show pstrip _ ≠ []
    rw [hsplit]
    simpa using hstrip

/-- Appending a separator block (`|`-free, with visible content) followed by
a fresh `|`-headed zone (with visible content) to a definition whose last
piece already holds a zone adds exactly one zone and keeps the last piece
non-blank. -/
theorem zcount_append_mid (acc pre post : Str)
    (hlast : lastOK acc) (hpre : noBar pre) (hpreInk : pstrip pre ≠ [])
    (hpost : noBar post) (hpostInk : pstrip post ≠ []) :
    zcount (acc ++ (pre ++ '|' :: post)) = zcount acc + 1 ∧
    lastOK (acc ++ (pre ++ '|' :: post)) := by
  have hsegsplit : splitBar (pre ++ '|' :: post) = [pre, post] := by
    rw [splitBar_noBar_append _ _ hpre, splitBar_noBar _ hpost]
  have hnp := splitOnP_ne_nil (fun c => decide (c = '|')) acc
  have hdecomp : splitBar acc = (splitBar acc).dropLast ++ [(splitBar acc).getLastD []] :=
    eq_dropLast_append_getLastD _ hnp []
  have happ : splitBar (acc ++ (pre ++ '|' :: post))
      = (splitBar acc).dropLast ++
        [((splitBar acc).getLastD []) ++ pre, post] := by
    show splitOnP _ _ = _
    rw [splitOnP_append]
    rw [show splitOnP (fun c => decide (c = '|')) (pre ++ '|' :: post) = _ from hsegsplit]
    rfl
  have hstripmid : pstrip (((splitBar acc).getLastD []) ++ pre) ≠ [] :=
    pstrip_append_ne_nil _ _ hpreInk
  constructor
  · show nzCount _ = _
    rw [happ, nzCount_append]
    conv_rhs => rw [show zcount acc = nzCount (splitBar acc) from rfl, hdecomp, nzCount_append]
    rw [nzCount_cons, nzCount_cons, nzCount_cons]
    simp only [nzCount, List.map_nil, List.filter_nil, List.length_nil]
    rw [if_neg hstripmid, if_neg hpostInk, if_neg (by simpa [lastOK] using hlast)]
  · show pstrip _ ≠ []
    rw [happ]
    rw [show (splitBar acc).dropLast ++ [((splitBar acc).getLastD []) ++ pre, post]
      = ((splitBar acc).dropLast ++ [((splitBar acc).getLastD []) ++ pre]) ++ [post] by simp]
    rw [List.getLastD_concat]
    exact hpostInk

end MergeCountLemmas

/-- Behaviour of the inner merge loop: processing one non-blank zone `s` of
the target against all raw pieces `ts` of the source definition adds one
zone per non-blank source piece, and afterwards `lFirst` can only still be
set if it was set and nothing was emitted. -/
theorem mergeLoopInner_spec (sName nName : Str) (hsn : noBar sName) (hnn : noBar nName)
    (i : Nat) (s : Str) (hs : noBar s) (hink : ∃ c ∈ s, ¬ isPySpace c) :
    ∀ (ts : List (Nat × Str)), (∀ p ∈ ts, noBar p.2) →
      ∀ (comm acc : Str) (lFirst : Bool),
      ((lFirst = true ∧ acc = []) ∨ (lFirst = false ∧ lastOK acc)) →
      zcount (mergeLoopInner sName nName i s ts (comm, acc, lFirst)).2.1
          = zcount acc + nzCount (ts.map (fun p => p.2)) ∧
      (((mergeLoopInner sName nName i s ts (comm, acc, lFirst)).2.2 = true ∧
          (mergeLoopInner sName nName i s ts (comm, acc, lFirst)).2.1 = acc ∧ lFirst = true) ∨
        ((mergeLoopInner sName nName i s ts (comm, acc, lFirst)).2.2 = false ∧
          lastOK (mergeLoopInner sName nName i s ts (comm, acc, lFirst)).2.1)) := by
  intro ts
  induction ts with
  | nil =>
    intro _ comm acc lFirst hinv
    refine ⟨by simp [mergeLoopInner, nzCount], ?_⟩
    rcases hinv with ⟨h1, h2⟩ | ⟨h1, h2⟩
    · exact Or.inl ⟨h1, by simp [mergeLoopInner], h1⟩
    · exact Or.inr ⟨h1, by simpa [mergeLoopInner] using h2⟩
  | cons jt rest ih =>
    intro hts comm acc lFirst hinv
    obtain ⟨j, t⟩ := jt
    have htsrest : ∀ p ∈ rest, noBar p.2 := fun p hp => hts p (List.mem_cons_of_mem _ hp)
    by_cases hstt : pstrip t = []
    · have hred : mergeLoopInner sName nName i s ((j, t) :: rest) (comm, acc, lFirst)
          = mergeLoopInner sName nName i s rest (comm, acc, lFirst) := by
        simp [mergeLoopInner, hstt]
      rw [hred]
      obtain ⟨e1, e2⟩ := ih htsrest comm acc lFirst hinv
      refine ⟨?_, e2⟩
      rw [e1, List.map_cons, nzCount_cons, if_pos hstt]
      omega
    · have htnb : noBar (pstrip t) := noBar_pstrip (hts (j, t) (List.mem_cons_self _ _))
      rcases hinv with ⟨hF, hA⟩ | ⟨hF, hA⟩
      · -- first emission: start the merged definition with `| s t`
        subst hF hA
        have hred : mergeLoopInner sName nName i s ((j, t) :: rest) (comm, [], true)
            = mergeLoopInner sName nName i s rest
              (tailStr comm (mergeComment nName (j + 1) sName (i + 1)),
               barSeg s (pstrip t), false) := by
          simp [mergeLoopInner, hstt]
        rw [hred]
        obtain ⟨hz1, hzlast⟩ := zcount_barSeg s (pstrip t) hs htnb hink
        obtain ⟨e1, e2⟩ := ih htsrest _ (barSeg s (pstrip t)) false (Or.inr ⟨rfl, hzlast⟩)
        constructor
        · rw [e1, hz1, zcount_nil, List.map_cons, nzCount_cons, if_neg hstt]
          omega
        · rcases e2 with ⟨hc1, _, hc3⟩ | h
          · exact absurd hc3 (by simp)
          · exact Or.inr h
      · -- later emission: append a comment block and a `|`-headed zone
        subst hF
        have hred : mergeLoopInner sName nName i s ((j, t) :: rest) (comm, acc, false)
            = mergeLoopInner sName nName i s rest
              (comm, acc ++ '\n' :: mergeComment nName (j + 1) sName (i + 1)
                      ++ '\n' :: (spacing16 ++ barSeg s (pstrip t)), false) := by
          simp [mergeLoopInner, hstt]
        rw [hred]
        have hcmtnb : noBar (mergeComment nName (j + 1) sName (i + 1)) :=
          mergeComment_noBar hnn hsn _ _
        set cmt := mergeComment nName (j + 1) sName (i + 1) with hcmtdef
        have heq : acc ++ '\n' :: cmt ++ '\n' :: (spacing16 ++ barSeg s (pstrip t))
            = acc ++ (('\n' :: cmt ++ '\n' :: spacing16)
                ++ '|' :: (' ' :: (s ++ ' ' :: pstrip t))) := by
          simp [barSeg, List.append_assoc]
        have hpre : noBar ('\n' :: cmt ++ '\n' :: spacing16) :=
          noBar_append (noBar_cons (by decide) hcmtnb)
            (noBar_cons (by decide) (noBar_replicate 16))
        have hpreInk : pstrip ('\n' :: cmt ++ '\n' :: spacing16) ≠ [] := by
          obtain ⟨d, hd, hds⟩ := mergeComment_ink nName (j + 1) sName (i + 1)
          exact pstrip_ne_nil_of_mem _
            (List.mem_append_left _ (List.mem_cons_of_mem _ hd)) hds
        have hpost : noBar (' ' :: (s ++ ' ' :: pstrip t)) :=
          noBar_cons (by decide) (noBar_append hs (noBar_cons (by decide) htnb))
        have hpostInk : pstrip (' ' :: (s ++ ' ' :: pstrip t)) ≠ [] := by
          obtain ⟨c, hc, hcs⟩ := hink
          exact pstrip_ne_nil_of_mem _ (by simp [hc]) hcs
        obtain ⟨hm1, hm2⟩ := zcount_append_mid acc ('\n' :: cmt ++ '\n' :: spacing16)
          (' ' :: (s ++ ' ' :: pstrip t)) hA hpre hpreInk hpost hpostInk
        rw [← heq] at hm1 hm2
        obtain ⟨e1, e2⟩ := ih htsrest comm _ false (Or.inr ⟨rfl, hm2⟩)
        constructor
        · rw [e1, hm1, List.map_cons, nzCount_cons, if_neg hstt]
          omega
        · rcases e2 with ⟨_, _, hc3⟩ | h
          · exact absurd hc3 (by simp)
          · exact Or.inr h

/-- Behaviour of the outer merge loop: the merged definition gains one zone
per pair of a non-blank target piece and a non-blank source piece. -/
theorem mergeLoopOuter_spec (sName nName : Str) (hsn : noBar sName) (hnn : noBar nName)
    (ts : List (Nat × Str)) (hts : ∀ p ∈ ts, noBar p.2) :
    ∀ (zs : List (Nat × Str)), (∀ p ∈ zs, noBar p.2) →
      ∀ (comm acc : Str) (lFirst : Bool),
      ((lFirst = true ∧ acc = []) ∨ (lFirst = false ∧ lastOK acc)) →
      zcount (mergeLoopOuter sName nName ts zs (comm, acc, lFirst)).2.1
        = zcount acc
          + nzCount (zs.map (fun p => p.2)) * nzCount (ts.map (fun p => p.2)) ∧
      (((mergeLoopOuter sName nName ts zs (comm, acc, lFirst)).2.2 = true ∧
          (mergeLoopOuter sName nName ts zs (comm, acc, lFirst)).2.1 = acc ∧ lFirst = true) ∨
        ((mergeLoopOuter sName nName ts zs (comm, acc, lFirst)).2.2 = false ∧
          lastOK (mergeLoopOuter sName nName ts zs (comm, acc, lFirst)).2.1)) := by
  intro zs
  induction zs with
  | nil =>
    intro _ comm acc lFirst hinv
    refine ⟨by simp [mergeLoopOuter, nzCount], ?_⟩
    rcases hinv with ⟨h1, h2⟩ | ⟨h1, h2⟩
    · exact Or.inl ⟨h1, by simp [mergeLoopOuter], h1⟩
    · exact Or.inr ⟨h1, by simpa [mergeLoopOuter] using h2⟩
  | cons iz rest ih =>
    intro hzs comm acc lFirst hinv
    obtain ⟨i, z⟩ := iz
    have hzsrest : ∀ p ∈ rest, noBar p.2 := fun p hp => hzs p (List.mem_cons_of_mem _ hp)
    by_cases hsz : pstrip z = []
    · have hred : mergeLoopOuter sName nName ts ((i, z) :: rest) (comm, acc, lFirst)
          = mergeLoopOuter sName nName ts rest (comm, acc, lFirst) := by
        simp [mergeLoopOuter, hsz]
      rw [hred]
      obtain ⟨e1, e2⟩ := ih hzsrest comm acc lFirst hinv
      refine ⟨?_, e2⟩
      rw [e1, List.map_cons, nzCount_cons, if_pos hsz, Nat.zero_add]
    · have hznb : noBar (pstrip z) := noBar_pstrip (hzs (i, z) (List.mem_cons_self _ _))
      have hzink : ∃ c ∈ pstrip z, ¬ isPySpace c := pstrip_ne_nil_ink z hsz
      have hred : mergeLoopOuter sName nName ts ((i, z) :: rest) (comm, acc, lFirst)
          = mergeLoopOuter sName nName ts rest
              (mergeLoopInner sName nName i (pstrip z) ts (comm, acc, lFirst)) := by
        simp [mergeLoopOuter, hsz]
      rw [hred]
      rcases hres : mergeLoopInner sName nName i (pstrip z) ts (comm, acc, lFirst)
        with ⟨comm2, acc2, lF2⟩
      obtain ⟨f1, f2⟩ := mergeLoopInner_spec sName nName hsn hnn i (pstrip z) hznb hzink
        ts hts comm acc lFirst hinv
      rw [hres] at f1 f2
      simp only at f1 f2
      have hinv2 : (lF2 = true ∧ acc2 = []) ∨ (lF2 = false ∧ lastOK acc2) := by
        rcases f2 with ⟨g1, g2, g3⟩ | ⟨g1, g2⟩
        · left
          refine ⟨g1, ?_⟩
          rcases hinv with ⟨_, hA⟩ | ⟨hF, _⟩
          · rw [g2, hA]
          · rw [hF] at g3; exact absurd g3 (by simp)
        · exact Or.inr ⟨g1, g2⟩
      obtain ⟨e1, e2⟩ := ih hzsrest comm2 acc2 lF2 hinv2
      constructor
      · rw [e1, f1, List.map_cons, nzCount_cons, if_neg hsz, Nat.add_mul, Nat.one_mul]
        omega
      · rcases e2 with ⟨g1, g2, g3⟩ | h
        · rcases f2 with ⟨k1, k2, k3⟩ | ⟨k1, _⟩
          · exact Or.inl ⟨g1, by rw [g2, k2], k3⟩
          · rw [k1] at g3; exact absurd g3 (by simp)
        · exact Or.inr h

/-- C1: merging a source region with `n` zones into a target region with
`m` zones produces a target definition with exactly `m * n` `|`-separated
zones, one per pair of a target zone and a source zone (the pair's
conjunction, followed by an audit comment line).  Region names are assumed
not to contain the union character `|` (FLUKA names never do); zones are
counted, as `merge` itself does, as the `|`-separated pieces whose
whitespace-strip is non-empty. -/
theorem C1_merge_cross_multiplies_zone_counts (selfR newR : Region)
    (h1 : selfR.isNonEmpty = true) (h2 : newR.isNonEmpty = true)
    (hsn : noBar selfR.name) (hnn : noBar newR.name) :
    (zonesOf (selfR.merge newR).definition).length
      = (zonesOf selfR.definition).length * (zonesOf newR.definition).length := by
  have hts : ∀ q ∈ (splitBar newR.definition).enum, noBar q.2 := by
    intro q hq c hc
    have h := splitOnP_piece_no_sep _ newR.definition q.2 (List.snd_mem_of_mem_enum hq) c hc
    simpa using h
  have hzs : ∀ q ∈ (splitBar selfR.definition).enum, noBar q.2 := by
    intro q hq c hc
    have h := splitOnP_piece_no_sep _ selfR.definition q.2 (List.snd_mem_of_mem_enum hq) c hc
    simpa using h
  have key : ∀ comm : Str,
      zcount (mergeLoopOuter selfR.name newR.name (splitBar newR.definition).enum
        (splitBar selfR.definition).enum (comm, [], true)).2.1
      = nzCount ((splitBar selfR.definition).enum.map (fun p => p.2))
        * nzCount ((splitBar newR.definition).enum.map (fun p => p.2)) := by
    intro comm
    have h := (mergeLoopOuter_spec selfR.name newR.name hsn hnn
      ((splitBar newR.definition).enum) hts ((splitBar selfR.definition).enum) hzs
      comm [] true (Or.inl ⟨rfl, rfl⟩)).1
    simpa [zcount_nil] using h
  have hmapS : (splitBar selfR.definition).enum.map (fun p => p.2)
      = splitBar selfR.definition := List.enum_map_snd _
  have hmapN : (splitBar newR.definition).enum.map (fun p => p.2)
      = splitBar newR.definition := List.enum_map_snd _
  have hdef : (selfR.merge newR).definition
      = (mergeLoopOuter selfR.name newR.name (splitBar newR.definition).enum
          (splitBar selfR.definition).enum
          ((if newR.comment.length > 0
            then (selfR.tailMe ("* --> merged with region ".toList ++ newR.name
                ++ " <--".toList)).tailMe newR.comment
            else selfR.tailMe ("* --> merged with region ".toList ++ newR.name
                ++ " <--".toList)).comment, [], true)).2.1 := rfl
  show zcount (selfR.merge newR).definition
      = nzCount (splitBar selfR.definition) * nzCount (splitBar newR.definition)
  rw [hdef, key, hmapS, hmapN]

/-- Witness for C1 at a concrete pair of regions: a 2-zone target merged
with a 2-zone source yields 4 zones. -/
theorem C1_witness :
    (zonesOf (({ Region.mk0 "TARG0001".toList with
          definition := "| +BODA -BODB\n                | +BODC".toList }).merge
        ({ Region.mk0 "SRC00001".toList with
          definition := "| +BODD\n                | +BODE -BODF".toList })).definition).length
      = (zonesOf "| +BODA -BODB\n                | +BODC".toList).length
        * (zonesOf "| +BODD\n                | +BODE -BODF".toList).length :=
  C1_merge_cross_multiplies_zone_counts _ _ (by decide) (by decide)
    (by unfold noBar; decide) (by unfold noBar; decide)

/-! ## `myMath.py`: square matrices, rotations, gimbal decomposition

The source `Matrix` class is dimension-generic but, as its own docstring
notes, "matrices are always 3×3 in practice" (with the 2×2 base case of
the recursive determinant); the embedding fixes these two sizes.  Python
float entries are modelled over a field `α` (`ℚ` in themselves-exact
computations, `ℝ` where trigonometry enters); `1/0` is `0` in this model,
where numpy floats would give `inf` with a warning — no exception either
way. -/

/-- 2×2 matrix (the base case of `Matrix.det`). -/
structure Mat2 (α : Type) where
  m00 : α
  m01 : α
  m10 : α
  m11 : α
  deriving DecidableEq

/-- 3×3 matrix (`myMath.Matrix` at its practical size). -/
structure Mat3 (α : Type) where
  m00 : α
  m01 : α
  m02 : α
  m10 : α
  m11 : α
  m12 : α
  m20 : α
  m21 : α
  m22 : α
  deriving DecidableEq

variable {α : Type} [Field α]

/-- `Matrix.det` for `nDim == 2` (the recursion's base case). -/
def Mat2.det (M : Mat2 α) : α := M.m00 * M.m11 - M.m10 * M.m01

/-- `Matrix.Cofactor(ii, jj)`: `-1` when `ii+jj` is odd, else `1`. -/
def cofSign (α : Type) [Field α] (ii jj : Nat) : α :=
  if (ii + jj) % 2 = 1 then -1 else 1

/-- `Matrix.Minor(ll, mm)`: drop row `ll` and column `mm`. -/
def Mat3.Minor (M : Mat3 α) (ll mm : Fin 3) : Mat2 α :=
  match ll, mm with
  | 0, 0 => ⟨M.m11, M.m12, M.m21, M.m22⟩
  | 0, 1 => ⟨M.m10, M.m12, M.m20, M.m22⟩
  | 0, 2 => ⟨M.m10, M.m11, M.m20, M.m21⟩
  | 1, 0 => ⟨M.m01, M.m02, M.m21, M.m22⟩
  | 1, 1 => ⟨M.m00, M.m02, M.m20, M.m22⟩
  | 1, 2 => ⟨M.m00, M.m01, M.m20, M.m21⟩
  | 2, 0 => ⟨M.m01, M.m02, M.m11, M.m12⟩
  | 2, 1 => ⟨M.m00, M.m02, M.m10, M.m12⟩
  | 2, 2 => ⟨M.m00, M.m01, M.m10, M.m11⟩

/-- `Matrix.det` for `nDim == 3`: Laplace expansion along the first row,
exactly as the source's loop writes it
(`det += self[0,ii] * Minor(0,ii).det() * Cofactor(0,ii)`). -/
def Mat3.det (M : Mat3 α) : α :=
  M.m00 * (M.Minor 0 0).det * cofSign α 0 0
    + M.m01 * (M.Minor 0 1).det * cofSign α 0 1
    + M.m02 * (M.Minor 0 2).det * cofSign α 0 2

/-- `Matrix.MinMat`: the matrix of minors. -/
def Mat3.MinMat (M : Mat3 α) : Mat3 α :=
  ⟨(M.Minor 0 0).det, (M.Minor 0 1).det, (M.Minor 0 2).det,
   (M.Minor 1 0).det, (M.Minor 1 1).det, (M.Minor 1 2).det,
   (M.Minor 2 0).det, (M.Minor 2 1).det, (M.Minor 2 2).det⟩

/-- `Matrix.CofactMat`: flip the sign of the entries at odd `ii+jj`. -/
def Mat3.CofactMat (M : Mat3 α) : Mat3 α :=
  ⟨M.m00, M.m01 * cofSign α 0 1, M.m02,
   M.m10 * cofSign α 1 0, M.m11, M.m12 * cofSign α 1 2,
   M.m20, M.m21 * cofSign α 2 1, M.m22⟩

/-- `Matrix.AdjugateMat`: the transpose. -/
def Mat3.AdjugateMat (M : Mat3 α) : Mat3 α :=
  ⟨M.m00, M.m10, M.m20,
   M.m01, M.m11, M.m21,
   M.m02, M.m12, M.m22⟩

/-- `Matrix.mulSca`: scale every entry. -/
def Mat3.mulSca (M : Mat3 α) (s : α) : Mat3 α :=
  ⟨M.m00 * s, M.m01 * s, M.m02 * s,
   M.m10 * s, M.m11 * s, M.m12 * s,
   M.m20 * s, M.m21 * s, M.m22 * s⟩

/-- `Matrix.mulMat`: `R[i,j] = Σ_k self[i,k] * RMat[k,j]`. -/
def Mat3.mulMat (M R : Mat3 α) : Mat3 α :=
  ⟨M.m00 * R.m00 + M.m01 * R.m10 + M.m02 * R.m20,
   M.m00 * R.m01 + M.m01 * R.m11 + M.m02 * R.m21,
   M.m00 * R.m02 + M.m01 * R.m12 + M.m02 * R.m22,
   M.m10 * R.m00 + M.m11 * R.m10 + M.m12 * R.m20,
   M.m10 * R.m01 + M.m11 * R.m11 + M.m12 * R.m21,
   M.m10 * R.m02 + M.m11 * R.m12 + M.m12 * R.m22,
   M.m20 * R.m00 + M.m21 * R.m10 + M.m22 * R.m20,
   M.m20 * R.m01 + M.m21 * R.m11 + M.m22 * R.m21,
   M.m20 * R.m02 + M.m21 * R.m12 + M.m22 * R.m22⟩

/-- `Matrix.mulArr`: multiply a 3×3 matrix by a 3-array. -/
def Mat3.mulArr (M : Mat3 α) (v : α × α × α) : α × α × α :=
  (M.m00 * v.1 + M.m01 * v.2.1 + M.m02 * v.2.2,
   M.m10 * v.1 + M.m11 * v.2.1 + M.m12 * v.2.2,
   M.m20 * v.1 + M.m21 * v.2.1 + M.m22 * v.2.2)

/-- `UnitMat`: the 3×3 identity. -/
def unit3 (α : Type) [Field α] : Mat3 α := ⟨1, 0, 0, 0, 1, 0, 0, 0, 1⟩

/-- `Matrix.inv`: matrix of minors, then cofactor signs, then transpose,
then division by the determinant — with no check of the determinant. -/
def Mat3.inv (M : Mat3 α) : Mat3 α :=
  (M.MinMat.CofactMat.AdjugateMat).mulSca (1 / M.det)

section Mat3Algebra

variable {α : Type} [Field α]

theorem Mat3.mulSca_mulMat (A B : Mat3 α) (s : α) :
    (A.mulSca s).mulMat B = (A.mulMat B).mulSca s := by
  obtain ⟨a, b, c, d, e, f, g, h, i⟩ := A
  obtain ⟨a2, b2, c2, d2, e2, f2, g2, h2, i2⟩ := B
  simp only [Mat3.mulSca, Mat3.mulMat, Mat3.mk.injEq]
  refine ⟨?_, ?_, ?_, ?_, ?_, ?_, ?_, ?_, ?_⟩ <;> ring

theorem Mat3.mulSca_mulSca (A : Mat3 α) (s t : α) :
    (A.mulSca s).mulSca t = A.mulSca (s * t) := by
  obtain ⟨a, b, c, d, e, f, g, h, i⟩ := A
  simp only [Mat3.mulSca, Mat3.mk.injEq]
  refine ⟨?_, ?_, ?_, ?_, ?_, ?_, ?_, ?_, ?_⟩ <;> ring

theorem Mat3.mulSca_one (A : Mat3 α) : A.mulSca 1 = A := by
  obtain ⟨a, b, c, d, e, f, g, h, i⟩ := A
  simp [Mat3.mulSca]

/-- The adjugate identity for the source's minors/cofactors/transpose
pipeline: multiplying the (unscaled) adjugate by the matrix gives the
determinant times the identity. -/
theorem Mat3.adj_mulMat (M : Mat3 α) :
    (M.MinMat.CofactMat.AdjugateMat).mulMat M = (unit3 α).mulSca M.det := by
  obtain ⟨a, b, c, d, e, f, g, h, i⟩ := M
  simp only [Mat3.MinMat, Mat3.CofactMat, Mat3.AdjugateMat, Mat3.mulMat, Mat3.mulSca,
    Mat3.det, Mat3.Minor, Mat2.det, cofSign, unit3, Mat3.mk.injEq]
  norm_num
  refine ⟨?_, ?_, ?_, ?_, ?_, ?_, ?_, ?_, ?_⟩ <;> ring

/-- The mirror-image adjugate identity. -/
theorem Mat3.mulMat_adj (M : Mat3 α) :
    M.mulMat (M.MinMat.CofactMat.AdjugateMat) = (unit3 α).mulSca M.det := by
  obtain ⟨a, b, c, d, e, f, g, h, i⟩ := M
  simp only [Mat3.MinMat, Mat3.CofactMat, Mat3.AdjugateMat, Mat3.mulMat, Mat3.mulSca,
    Mat3.det, Mat3.Minor, Mat2.det, cofSign, unit3, Mat3.mk.injEq]
  norm_num
  refine ⟨?_, ?_, ?_, ?_, ?_, ?_, ?_, ?_, ?_⟩ <;> ring

theorem Mat3.mulMat_mulSca (A B : Mat3 α) (s : α) :
    A.mulMat (B.mulSca s) = (A.mulMat B).mulSca s := by
  obtain ⟨a, b, c, d, e, f, g, h, i⟩ := A
  obtain ⟨a2, b2, c2, d2, e2, f2, g2, h2, i2⟩ := B
  simp only [Mat3.mulSca, Mat3.mulMat, Mat3.mk.injEq]
  refine ⟨?_, ?_, ?_, ?_, ?_, ?_, ?_, ?_, ?_⟩ <;> ring

end Mat3Algebra

/-- C8 counterexample: the claim says inverting a matrix with determinant
(approximately) zero fails with a distinct `SingularMatrix` condition
rather than returning the adjugate divided by the determinant.  At this
concrete singular matrix `Matrix.inv` performs no such check: it returns
exactly the adjugate-over-determinant value (in this exact model the zero
matrix, since `1/0 = 0`; the Python float code returns `inf`/`nan`
entries with a warning — in neither case a raised `SingularMatrix`
condition). -/
theorem C8_counterexample :
    (Mat3.det (⟨1, 2, 3, 2, 4, 6, 0, 0, 1⟩ : Mat3 ℚ) = 0) ∧
    Mat3.inv (⟨1, 2, 3, 2, 4, 6, 0, 0, 1⟩ : Mat3 ℚ)
      = ((Mat3.MinMat ⟨1, 2, 3, 2, 4, 6, 0, 0, 1⟩).CofactMat.AdjugateMat).mulSca
          (1 / Mat3.det ⟨1, 2, 3, 2, 4, 6, 0, 0, 1⟩) ∧
    Mat3.inv (⟨1, 2, 3, 2, 4, 6, 0, 0, 1⟩ : Mat3 ℚ) = ⟨0, 0, 0, 0, 0, 0, 0, 0, 0⟩ := by
  refine ⟨by norm_num [Mat3.det, Mat3.Minor, Mat2.det, cofSign], rfl, ?_⟩
  norm_num [Mat3.inv, Mat3.det, Mat3.Minor, Mat2.det, cofSign, Mat3.MinMat,
    Mat3.CofactMat, Mat3.AdjugateMat, Mat3.mulSca, Mat3.mk.injEq]

/-- C8 (amended): `Matrix.inv` performs no singularity check at all: for
every matrix it unconditionally returns the adjugate divided by the
determinant (which is a genuine two-sided inverse whenever the determinant
is non-zero); a vanishing determinant is not detected and no
`SingularMatrix` condition exists in the code. -/
theorem C8_inv_is_unchecked_adjugate_over_det (M : Mat3 ℚ) :
    M.inv = (M.MinMat.CofactMat.AdjugateMat).mulSca (1 / M.det) ∧
    (M.det ≠ 0 → M.inv.mulMat M = unit3 ℚ ∧ M.mulMat M.inv = unit3 ℚ) := by
  refine ⟨rfl, fun hdet => ⟨?_, ?_⟩⟩
  · rw [Mat3.inv, Mat3.mulSca_mulMat, Mat3.adj_mulMat, Mat3.mulSca_mulSca,
      mul_one_div, div_self hdet, Mat3.mulSca_one]
  · rw [Mat3.inv, Mat3.mulMat_mulSca, Mat3.mulMat_adj, Mat3.mulSca_mulSca,
      mul_one_div, div_self hdet, Mat3.mulSca_one]

/-- Witness for the amended C8 at a concrete invertible matrix. -/
theorem C8_witness :
    Mat3.det (⟨2, 0, 0, 0, 1, 0, 0, 0, 1⟩ : Mat3 ℚ) ≠ 0 ∧
    (Mat3.inv (⟨2, 0, 0, 0, 1, 0, 0, 0, 1⟩ : Mat3 ℚ)).mulMat ⟨2, 0, 0, 0, 1, 0, 0, 0, 1⟩
      = unit3 ℚ := by
  have hne : Mat3.det (⟨2, 0, 0, 0, 1, 0, 0, 0, 1⟩ : Mat3 ℚ) ≠ 0 := by
    norm_num [Mat3.det, Mat3.Minor, Mat2.det, cofSign]
  exact ⟨hne, ((C8_inv_is_unchecked_adjugate_over_det ⟨2, 0, 0, 0, 1, 0, 0, 0, 1⟩).2 hne).1⟩

/-- C10: for every region — in particular one whose definition is the
empty string — `retBodiesInDef` returns a (possibly empty) list of body
names and never takes its fatal `Region ... is empty!` branch: the guard
`if (self.isNonEmpty):` tests the bound method object itself (always
truthy) instead of calling it, so the `exit(1)` branch is unreachable for
all inputs, and an empty definition yields the empty list. -/
theorem C10_retBodiesInDef_never_fails (r : Region) :
    (∃ bs, r.retBodiesInDef = Except.ok bs) ∧
    (r.definition = [] → r.retBodiesInDef = Except.ok []) := by
  constructor
  · exact ⟨_, rfl⟩
  · intro h
    simp [Region.retBodiesInDef, isNonEmptyMethodTruthy, h, splitlines]

/-- Witness for C10 at a concrete empty region. -/
theorem C10_witness :
    (Region.mk0 "VACREG01".toList).retBodiesInDef = Except.ok [] :=
  (C10_retBodiesInDef_never_fails (Region.mk0 "VACREG01".toList)).2 rfl

/-! ## `grid.py`: spherical grid and hive

All coordinate arithmetic of `grid.py` is pure field arithmetic and is
modelled over `ℚ`; only the rotation matrices and placement points of the
`Location`s (which involve trigonometry) live over `ℝ`. -/

/-- Degrees to radians (`np.radians`). -/
noncomputable def rad (x : ℝ) : ℝ := x * Real.pi / 180

/-- Radians to degrees (`np.degrees`). -/
noncomputable def degOf (x : ℝ) : ℝ := x * 180 / Real.pi

/-- The rotation matrix around the `x` axis (`myMath.RotMat` reminder
table), for an angle already converted to radians. -/
noncomputable def rotX (t : ℝ) : Mat3 ℝ :=
  ⟨1, 0, 0,
   0, Real.cos t, -Real.sin t,
   0, Real.sin t, Real.cos t⟩

/-- The rotation matrix around the `y` axis. -/
noncomputable def rotY (t : ℝ) : Mat3 ℝ :=
  ⟨Real.cos t, 0, Real.sin t,
   0, 1, 0,
   -Real.sin t, 0, Real.cos t⟩

/-- The rotation matrix around the `z` axis. -/
noncomputable def rotZ (t : ℝ) : Mat3 ℝ :=
  ⟨Real.cos t, -Real.sin t, 0,
   Real.sin t, Real.cos t, 0,
   0, 0, 1⟩

open Classical in
/-- The matrix built by `myMath.RotMat.__init__` for a valid axis: the
unit matrix when the angle (already in radians) is zero (the
trigonometric entries are then never filled in — which equals the filled
matrix anyway, since `cos 0 = 1` and `sin 0 = 0`), otherwise the
appropriate elementary rotation. -/
noncomputable def rotFill (tAng : ℝ) (myAxis : Nat) : Mat3 ℝ :=
  if tAng = 0 then unit3 ℝ
  else if myAxis = 1 then rotX tAng
  else if myAxis = 2 then rotY tAng
  else rotZ tAng

/-- `myMath.RotMat.__init__`: start from the unit matrix, reject an axis
outside `{1, 2, 3}` (fatal), convert to radians if `lDegs`, and fill in
the trigonometric entries (`rotFill`). -/
noncomputable def rotMatE (myAng : ℝ) (myAxis : Nat) (lDegs : Bool) :
    Except PyErr (Mat3 ℝ) :=
  if myAxis < 1 ∨ myAxis > 3 then .error (.exitCode 1)
  else .ok (rotFill (if lDegs then rad myAng else myAng) myAxis)

/-- Sequential `Except`-valued map (a Python `for` loop building a list,
stopping at the first fatal error). -/
def mapME {β γ : Type} (f : β → Except PyErr γ) : List β → Except PyErr (List γ)
  | [] => .ok []
  | b :: bs => do
    let c ← f b
    let cs ← mapME f bs
    .ok (c :: cs)

/-- `myMath.RotMat.ConcatenatedRotMatrices`: build one rotation matrix per
(angle, axis) pair (the lists are combined like Python `zip`), then fold
`newMat = rotMat.mulMat(newMat)` starting from the unit matrix — so the
*last* pair of the list ends up leftmost in the product. -/
noncomputable def concatRotE (myAngs : List ℝ) (myAxes : List Nat) (lDegs : Bool) :
    Except PyErr (Mat3 ℝ) := do
  let mats ← mapME (fun p => rotMatE p.1 p.2 lDegs) (myAngs.zip myAxes)
  .ok (mats.foldl (fun newMat rotMat => rotMat.mulMat newMat) (unit3 ℝ))

/-- `grid.Location.ComputeRotMat`: check that the number of angles matches
the number of axes (fatal otherwise), then concatenate (degrees). -/
noncomputable def computeRotMatE (angs : List ℝ) (axes : List Nat) :
    Except PyErr (Mat3 ℝ) :=
  if angs.length ≠ axes.length then .error (.exitCode 1)
  else concatRotE angs axes true

/-- `grid.Location`: a position, an orientation matrix and the angle/axis
sequence that produced it (the display label is not modelled). -/
structure Location where
  P : Vec3R
  W : Mat3 ℝ
  angs : List ℚ
  axes : List Nat

/-- One grid location of `SphericalShell.__init__`: orientation
`ConcatenatedRotMatrices([-theta, phi], [1, 2])`, position = that matrix
applied to `(0, 0, r)`. -/
noncomputable def mkLocE (r t p : ℚ) : Except PyErr Location := do
  let W ← computeRotMatE [((-t : ℚ) : ℝ), ((p : ℚ) : ℝ)] [1, 2]
  .ok ⟨W.mulArr (0, 0, (r : ℝ)), W, [-t, p], [1, 2]⟩

/-- `np.linspace(a, b, num)` over `ℚ`: `num` evenly spaced points with the
end points included (`[a]` for `num = 1`, `[]` for `num = 0`). -/
def linspace (a b : ℚ) (num : Nat) : List ℚ :=
  (List.range num).map (fun (i : Nat) => a + (i : ℚ) * (b - a) / ((num : ℚ) - 1))

/-- `grid.CheckSphericalRange`.  Each silent re-ordering branch for
reversed bounds executes `if (lDebug):` — but `lDebug` is only bound at
module level inside `grid.py`'s `if __name__ == "__main__":` block, so in
the library (imported) configuration the name is unbound and the branch
raises `NameError` before any range check runs.  The subsequent checks are
fatal `exit(1)` validations. -/
def checkSphericalRange (Rmin Rmax : ℚ) (NR : Int) (Tmin Tmax : ℚ) (NT : Int)
    (Pmin Pmax : ℚ) (NP : Int) :
    Except PyErr (ℚ × ℚ × Int × ℚ × ℚ × Int × ℚ × ℚ × Int) :=
  if Rmin > Rmax then .error (.nameError "lDebug".toList)
  else if Tmin > Tmax then .error (.nameError "lDebug".toList)
  else if Pmin > Pmax then .error (.nameError "lDebug".toList)
  else if Rmin ≤ 0 then .error (.exitCode 1)
  else if Tmin < -90 ∨ Tmax > 90 then .error (.exitCode 1)
  else if Pmin < -180 ∨ Pmax > 180 then .error (.exitCode 1)
  else if Pmax - Pmin = 360 then .error (.exitCode 1)
  else if NR ≤ 0 then .error (.exitCode 1)
  else if NT < 0 then .error (.exitCode 1)
  else if NP < 0 then .error (.exitCode 1)
  else .ok (Rmin, Rmax, NR, Tmin, Tmax, NT, Pmin, Pmax, NP)

/-- The shell grid: the ordered list of locations plus the
`HasPoles = [TTs[0] == -90, TTs[-1] == 90]` flags. -/
structure ShellGrid where
  locs : List Location
  HasPoles : Bool × Bool

/-- The 1-point mesh collapse of `SphericalShell.__init__`: a single-point
axis is placed at the mean of its range. -/
def meanCollapse (a b : ℚ) (n : Int) : ℚ × ℚ :=
  if n = 1 then ((b + a) / 2, (b + a) / 2) else (a, b)

/-- The triply nested location loop of `SphericalShell.__init__`: one row
of locations per (r, theta) pair, where a pole row (first/last theta index
with the corresponding pole present) keeps only `PPs[0]` (`IndexError`
when `PPs` is empty). -/
noncomputable def shellLocsE (RRs TTs PPs : List ℚ) (hasS hasN : Bool) :
    Except PyErr (List (List (List Location))) :=
  mapME (fun r =>
    mapME (fun it => do
      let loopPPs ←
        if (it.1 = 0 ∧ hasS = true) ∨ (it.1 = TTs.length - 1 ∧ hasN = true) then
          match PPs with
          | [] => Except.error PyErr.indexError
          | p0 :: _ => Except.ok [p0]
        else Except.ok PPs
      mapME (fun p => mkLocE r it.2 p) loopPPs) TTs.enum) RRs

/-- `grid.SphericalShell.__init__`: validate the ranges, collapse any
1-point axis to its mean, lay out `linspace` meshes, record the pole
flags, then emit one location per (r, theta, phi) — except that a pole
row keeps only `PPs[0]`.  `TTs[0]` on an empty mesh (NT = 0) raises
`IndexError`, as does `PPs[0]` for a pole row with NP = 0. -/
noncomputable def sphericalShell (Rmin Rmax : ℚ) (NR : Int) (Tmin Tmax : ℚ) (NT : Int)
    (Pmin Pmax : ℚ) (NP : Int) : Except PyErr ShellGrid := do
  let (oRmin, oRmax, oNR, oTmin, oTmax, oNT, oPmin, oPmax, oNP) ←
    checkSphericalRange Rmin Rmax NR Tmin Tmax NT Pmin Pmax NP
  let mcR := meanCollapse oRmin oRmax oNR
  let mcT := meanCollapse oTmin oTmax oNT
  let mcP := meanCollapse oPmin oPmax oNP
  let RRs := linspace mcR.1 mcR.2 oNR.toNat
  let TTs := linspace mcT.1 mcT.2 oNT.toNat
  let PPs := linspace mcP.1 mcP.2 oNP.toNat
  if TTs = [] then .error .indexError
  else
    let hasS : Bool := TTs.headD 0 = -90
    let hasN : Bool := TTs.getLastD 0 = 90
    let locsLL ← shellLocsE RRs TTs PPs hasS hasN
    .ok ⟨(locsLL.map List.flatten).flatten, (hasS, hasN)⟩

/-- The spherical hive: the two coverage flags and the three boundary
meshes. -/
structure SphHive where
  PhiCovers2pi : Bool
  ThetaCoversPi : Bool
  RRs : List ℚ
  TTs : List ℚ
  PPs : List ℚ

/-- Radial block of `SphericalHive.__init__`: pad by half a radial step
when `NR > 1` (the condition tests the raw input `NR`, the divisor uses
`oNR`). -/
def hiveRadial (oRmin oRmax : ℚ) (NR oNR : Int) : ℚ × ℚ :=
  if NR > 1 then
    (oRmin - (oRmax - oRmin) / ((oNR : ℚ) - 1) / 2,
     oRmax + (oRmax - oRmin) / ((oNR : ℚ) - 1) / 2)
  else (oRmin, oRmax)

/-- Theta block of `SphericalHive.__init__`: pad by half a step, but trim
(and drop one boundary) at each range end that sits exactly on a pole;
returns `(hTmin, hTmax, oNT')`. -/
def hiveTheta (oTmin oTmax : ℚ) (oNT : Int) : ℚ × ℚ × Int :=
  if oNT = 1 then
    ((oTmax + oTmin) / 2 - (oTmax - oTmin) / 2,
     (oTmax + oTmin) / 2 + (oTmax - oTmin) / 2, oNT)
  else
    let hdT := (oTmax - oTmin) / ((oNT : ℚ) - 1)
    let p1 := if oTmax = 90 then (oTmax - hdT / 2, oNT - 1) else (oTmax + hdT / 2, oNT)
    let p2 := if oTmin = -90 then (oTmin + hdT / 2, p1.2 - 1) else (oTmin - hdT / 2, p1.2)
    (p2.1, p1.1, p2.2)

/-- Phi padding block of `SphericalHive.__init__`: returns
`(hdP, hPmin, hPmax)`. -/
def hivePhiPad (oPmin oPmax : ℚ) (oNP : Int) : ℚ × ℚ × ℚ :=
  if oNP = 1 then
    (oPmax - oPmin, (oPmax + oPmin) / 2 - (oPmax - oPmin) / 2,
     (oPmax + oPmin) / 2 + (oPmax - oPmin) / 2)
  else
    ((oPmax - oPmin) / ((oNP : ℚ) - 1),
     oPmin - (oPmax - oPmin) / ((oNP : ℚ) - 1) / 2,
     oPmax + (oPmax - oPmin) / ((oNP : ℚ) - 1) / 2)

/-- Azimuth seam handling of `SphericalHive.__init__`: when the padded
span reaches exactly 360° drop the duplicate boundary and set the flag;
beyond 360° is fatal. -/
def hivePhiSeam (hdP hPmin hPmax : ℚ) (oNP : Int) : Except PyErr (Bool × ℚ × Int) :=
  if hPmax - hPmin = 360 then .ok (true, hPmax - hdP, oNP - 1)
  else if hPmax - hPmin > 360 then .error (.exitCode 1)
  else .ok (false, hPmax, oNP)

/-- `grid.SphericalHive.__init__`: validate the ranges, pad each mesh by
half a grid step (trimming rows that sit exactly on a pole), drop the
duplicate azimuth seam when the padded span reaches exactly 360° (fatal
if it exceeds 360°), lay out the boundary meshes and compute the
`ThetaCoversPi` flag from the padded theta span (an empty theta mesh is
fatal — `np.linspace` rejects the negative count before `TTs[-1]` could
fail; both fatal paths are modelled as the index failure). -/
def sphericalHive (Rmin Rmax : ℚ) (NR : Int) (Tmin Tmax : ℚ) (NT : Int)
    (Pmin Pmax : ℚ) (NP : Int) : Except PyErr SphHive := do
  let (oRmin, oRmax, oNR, oTmin, oTmax, oNT, oPmin, oPmax, oNP) ←
    checkSphericalRange Rmin Rmax NR Tmin Tmax NT Pmin Pmax NP
  let rp := hiveRadial oRmin oRmax NR oNR
  let tp := hiveTheta oTmin oTmax oNT
  let pp := hivePhiPad oPmin oPmax oNP
  let sp ← hivePhiSeam pp.1 pp.2.1 pp.2.2 oNP
  let RRs := linspace rp.1 rp.2 (oNR + 1).toNat
  let TTs := linspace tp.1 tp.2.1 (tp.2.2 + 1).toNat
  let PPs := linspace pp.2.1 sp.2.1 (sp.2.2 + 1).toNat
  if TTs = [] then .error .indexError
  else .ok ⟨sp.1, TTs.getLastD 0 - TTs.headD 0 = 180, RRs, TTs, PPs⟩

/-- C9: for inputs with reversed bounds (e.g. `Rmin > Rmax`), the
spherical range validator neither returns the sorted bounds nor reports a
validation error: its silent re-ordering branch reads the debug flag
`lDebug`, which is never bound in the imported module, so the call fails
with an unbound-name error (`NameError`) before any range check runs — in
the first example below `Rmin = -5 ≤ 0` would be a fatal validation error,
yet the `NameError` fires first. -/
theorem C9_reversed_bounds_raise_name_error :
    checkSphericalRange (-5) (-10) 1 0 0 1 0 0 1
        = .error (.nameError "lDebug".toList) ∧
    checkSphericalRange 2 1 1 0 0 1 0 0 1
        = .error (.nameError "lDebug".toList) := by
  constructor <;> (unfold checkSphericalRange; norm_num)

section GridLemmas

theorem linspace_length (a b : ℚ) (n : Nat) : (linspace a b n).length = n := by
  rw [linspace, List.length_map, List.length_range]

theorem linspace_ne_nil (a b : ℚ) (n : Nat) (h : n ≠ 0) : linspace a b n ≠ [] := by
  intro hc
  have := linspace_length a b n
  rw [hc] at this
  simp at this
  omega

theorem linspace_head (a b : ℚ) (n : Nat) (h : n ≠ 0) : (linspace a b n).headD 0 = a := by
  obtain ⟨m, rfl⟩ : ∃ m, n = m + 1 := ⟨n - 1, by omega⟩
  rw [linspace, List.range_succ_eq_map]
  simp

theorem linspace_last (a b : ℚ) (n : Nat) (h : 2 ≤ n) : (linspace a b n).getLastD 0 = b := by
  obtain ⟨m, rfl⟩ : ∃ m, n = m + 1 := ⟨n - 1, by omega⟩
  rw [linspace, List.range_succ, List.map_append]
  simp only [List.map_cons, List.map_nil, List.getLastD_concat]
  have hm0 : (m : ℚ) ≠ 0 := by
    exact_mod_cast (show m ≠ 0 by omega)
  push_cast
  have hm : (m : ℚ) + 1 - 1 = (m : ℚ) := by ring
  rw [hm, mul_div_cancel_left₀ _ hm0]
  ring

theorem linspace_single (a b : ℚ) : linspace a b 1 = [a] := by
  simp [linspace, List.range_succ]

/-- The range validator succeeds (returning its inputs unchanged) exactly
on sorted, in-range inputs with positive counts and an azimuth span other
than 360°. -/
theorem checkSphericalRange_ok (Rmin Rmax : ℚ) (NR : Int) (Tmin Tmax : ℚ) (NT : Int)
    (Pmin Pmax : ℚ) (NP : Int)
    (hRle : Rmin ≤ Rmax) (hTle : Tmin ≤ Tmax) (hPle : Pmin ≤ Pmax)
    (hR0 : 0 < Rmin) (hTlo : -90 ≤ Tmin) (hThi : Tmax ≤ 90)
    (hPlo : -180 ≤ Pmin) (hPhi : Pmax ≤ 180) (hsp : Pmax - Pmin ≠ 360)
    (hNR : 0 < NR) (hNT : 0 ≤ NT) (hNP : 0 ≤ NP) :
    checkSphericalRange Rmin Rmax NR Tmin Tmax NT Pmin Pmax NP
      = .ok (Rmin, Rmax, NR, Tmin, Tmax, NT, Pmin, Pmax, NP) := by
  unfold checkSphericalRange
  rw [if_neg (not_lt.mpr hRle), if_neg (not_lt.mpr hTle), if_neg (not_lt.mpr hPle),
    if_neg (not_le.mpr hR0),
    if_neg (not_or.mpr ⟨not_lt.mpr hTlo, not_lt.mpr hThi⟩),
    if_neg (not_or.mpr ⟨not_lt.mpr hPlo, not_lt.mpr hPhi⟩),
    if_neg hsp, if_neg (by omega), if_neg (by omega), if_neg (by omega)]

end GridLemmas

theorem hiveTheta_oNT_nonneg (oTmin oTmax : ℚ) (oNT : Int) (h1 : 1 ≤ oNT) :
    0 ≤ (hiveTheta oTmin oTmax oNT).2.2 := by
  unfold hiveTheta
  by_cases h : oNT = 1
  · simp [h]
  · simp only [if_neg h]
    by_cases h90 : oTmax = 90 <;> by_cases hm90 : oTmin = -90 <;>
      simp [h90, hm90] <;> omega

/-- C5 counterexample: the claim says that a *requested* azimuthal range
spanning exactly 360° makes hive construction succeed with the
`PhiCovers2pi` flag set; in fact `CheckSphericalRange` rejects a requested
span of exactly 360° with a fatal error before any hive is built. -/
theorem C5_counterexample :
    sphericalHive 75 125 2 (-20) 20 4 (-180) 180 4 = .error (.exitCode 1) := by
  have hchk : checkSphericalRange 75 125 2 (-20) 20 4 (-180) 180 4
      = .error (.exitCode 1) := by
    unfold checkSphericalRange
    norm_num
  unfold sphericalHive
  rw [hchk]
  rfl

/-- C5 (amended): a requested azimuth span of exactly 360° is a fatal
input error; the seam-dropping branch instead fires when the *padded hive
span* — requested span plus one grid step `hdP = (Pmax-Pmin)/(NP-1)` —
equals exactly 360°: then construction succeeds, `PhiCovers2pi` is true,
the duplicate seam boundary is dropped and the number of meridian
boundaries is `NP` instead of `NP + 1`. -/
theorem C5_phi_covers_2pi_when_padded_span_is_360
    (Rmin Rmax : ℚ) (NR : Int) (Tmin Tmax : ℚ) (NT : Int) (Pmin Pmax : ℚ) (NP : Int)
    (hRle : Rmin ≤ Rmax) (hTle : Tmin ≤ Tmax) (hPle : Pmin ≤ Pmax)
    (hR0 : 0 < Rmin) (hTlo : -90 ≤ Tmin) (hThi : Tmax ≤ 90)
    (hPlo : -180 ≤ Pmin) (hPhi : Pmax ≤ 180)
    (hNR : 1 ≤ NR) (hNT : 1 ≤ NT) (hNP : 2 ≤ NP)
    (hspan : (Pmax - Pmin) * (NP : ℚ) = 360 * ((NP : ℚ) - 1)) :
    (sphericalHive Rmin Rmax NR Tmin Tmax NT Pmin Pmax NP).map
      (fun h => (h.PhiCovers2pi, h.PPs.length)) = .ok (true, NP.toNat) := by
  have hNPq : (2 : ℚ) ≤ (NP : ℚ) := by exact_mod_cast hNP
  have hspanlt : Pmax - Pmin < 360 := by nlinarith
  have hsp : Pmax - Pmin ≠ 360 := ne_of_lt hspanlt
  have hNPne : ((NP : ℚ) - 1) ≠ 0 := by linarith
  have hpadeq : hivePhiPad Pmin Pmax NP
      = ((Pmax - Pmin) / ((NP : ℚ) - 1),
         Pmin - (Pmax - Pmin) / ((NP : ℚ) - 1) / 2,
         Pmax + (Pmax - Pmin) / ((NP : ℚ) - 1) / 2) := by
    unfold hivePhiPad
    rw [if_neg (by omega : ¬ NP = (1 : Int))]
  have h360 : (Pmax + (Pmax - Pmin) / ((NP : ℚ) - 1) / 2)
      - (Pmin - (Pmax - Pmin) / ((NP : ℚ) - 1) / 2) = 360 := by
    field_simp
    nlinarith [hspan]
  have hseam : hivePhiSeam ((Pmax - Pmin) / ((NP : ℚ) - 1))
      (Pmin - (Pmax - Pmin) / ((NP : ℚ) - 1) / 2)
      (Pmax + (Pmax - Pmin) / ((NP : ℚ) - 1) / 2) NP
      = .ok (true, (Pmax + (Pmax - Pmin) / ((NP : ℚ) - 1) / 2)
          - (Pmax - Pmin) / ((NP : ℚ) - 1), NP - 1) := by
    unfold hivePhiSeam
    rw [if_pos h360]
  have hTTne : linspace (hiveTheta Tmin Tmax NT).1 (hiveTheta Tmin Tmax NT).2.1
      ((hiveTheta Tmin Tmax NT).2.2 + 1).toNat ≠ [] := by
    apply linspace_ne_nil
    have := hiveTheta_oNT_nonneg Tmin Tmax NT hNT
    omega
  have hlast : NP - 1 + 1 = NP := by omega
  unfold sphericalHive
  rw [checkSphericalRange_ok _ _ _ _ _ _ _ _ _ hRle hTle hPle hR0 hTlo hThi hPlo hPhi hsp
    (by omega) (by omega) (by omega)]
  simp only [Except.bind, bind, Except.map, hpadeq, hseam]
  rw [if_neg hTTne]
  simp only [Except.map, linspace_length, hlast]

/-- Witness for the amended C5 at the parameters of `grid.py`'s own test
block (azimuth span 340° plus one 20° step = 360°). -/
theorem C5_witness :
    (sphericalHive 75 125 1 (-90) 90 19 (-180) 160 18).map
      (fun h => (h.PhiCovers2pi, h.PPs.length)) = .ok (true, 18) := by
  have h := C5_phi_covers_2pi_when_padded_span_is_360 75 125 1 (-90) 90 19 (-180) 160 18
    (by norm_num) (by norm_num) (by norm_num) (by norm_num) (by norm_num) (by norm_num)
    (by norm_num) (by norm_num) (by norm_num) (by norm_num) (by norm_num) (by norm_num)
  simpa using h

section ShellLemmas

theorem mapME_eq_map {β γ : Type} (f : β → Except PyErr γ) (g : β → γ) (l : List β)
    (h : ∀ b ∈ l, f b = .ok (g b)) : mapME f l = .ok (l.map g) := by
  induction l with
  | nil => rfl
  | cons b bs ih =>
    have hb := h b (List.mem_cons_self _ _)
    have hrest := ih (fun x hx => h x (List.mem_cons_of_mem _ hx))
    simp [mapME, hb, hrest, Except.bind, bind]

/-- The orientation matrix of one shell location,
`ConcatenatedRotMatrices([-t, p], [1, 2])` written out: the `y`-rotation
(last of the list) ends up leftmost. -/
noncomputable def shellW (t p : ℚ) : Mat3 ℝ :=
  (rotFill (rad ((p : ℚ) : ℝ)) 2).mulMat
    ((rotFill (rad ((-t : ℚ) : ℝ)) 1).mulMat (unit3 ℝ))

/-- The location value produced by `mkLocE` (which never fails: its axis
list is the literal `[1, 2]`). -/
noncomputable def mkLocVal (r t p : ℚ) : Location :=
  ⟨(shellW t p).mulArr (0, 0, (r : ℝ)), shellW t p, [-t, p], [1, 2]⟩

theorem mkLocE_ok (r t p : ℚ) : mkLocE r t p = .ok (mkLocVal r t p) := by
  norm_num [mkLocE, computeRotMatE, concatRotE, mapME, rotMatE, mkLocVal, shellW,
    Except.bind, bind]

theorem enumFrom_map_fst_fun {α γ : Type} (l : List α) (w : Nat → γ) :
    ∀ k, (l.enumFrom k).map (fun it => w it.1)
      = (List.range l.length).map (fun i => w (i + k)) := by
  induction l with
  | nil => intro k; rfl
  | cons a l ih =>
    intro k
    rw [List.enumFrom_cons, List.map_cons, List.length_cons, List.range_succ_eq_map,
      List.map_cons, List.map_map, ih (k + 1)]
    refine congrArg₂ List.cons (by simp) ?_
    apply List.map_congr_left
    intro i _
    simp only [Function.comp_apply]
    congr 1
    omega

theorem enum_map_fst_fun {α γ : Type} (l : List α) (w : Nat → γ) :
    l.enum.map (fun it => w it.1) = (List.range l.length).map w := by
  rw [show l.enum = l.enumFrom 0 from rfl, enumFrom_map_fst_fun]
  simp

/-- Sum of the per-row location counts when both poles are present: the
first and last theta rows contribute one location each, the remaining
`NTn - 2` rows contribute `NPn` each. -/
theorem sum_pole_weights (NTn NPn : Nat) (h : 2 ≤ NTn) :
    ((List.range NTn).map (fun i => if i = 0 ∨ i = NTn - 1 then 1 else NPn)).sum
      = (NTn - 2) * NPn + 2 := by
  obtain ⟨m, rfl⟩ : ∃ m, NTn = m + 2 := ⟨NTn - 2, by omega⟩
  rw [List.range_succ, List.map_append, List.sum_append]
  rw [List.range_succ_eq_map, List.map_cons, List.sum_cons, List.map_map]
  have hmid : (List.range m).map
        ((fun i => if i = 0 ∨ i = m + 2 - 1 then 1 else NPn) ∘ (· + 1))
      = (List.range m).map (fun _ => NPn) := by
    apply List.map_congr_left
    intro i hi
    rw [List.mem_range] at hi
    simp only [Function.comp]
    rw [if_neg (by omega)]
  rw [hmid, List.map_const', List.sum_replicate, smul_eq_mul]
  simp only [List.map_cons, List.map_nil, List.sum_cons, List.sum_nil]
  have h1 : (m + 1 = 0 ∨ m + 1 = m + 2 - 1) := Or.inr (by omega)
  rw [if_pos h1, List.length_range, show m + 2 - 2 = m by omega]
  simp only [true_or, eq_self_iff_true, if_true, if_pos]
  ring

end ShellLemmas

/-- One row of the shell loop in closed form: a pole row holds the single
location at `PPs[0]`, any other row one location per azimuth value. -/
noncomputable def shellRow (r : ℚ) (NTn : Nat) (PPs : List ℚ) (it : Nat × ℚ) :
    List Location :=
  if it.1 = 0 ∨ it.1 = NTn - 1 then [mkLocVal r it.2 (PPs.headD 0)]
  else PPs.map (fun p => mkLocVal r it.2 p)

theorem shellRow_length (r : ℚ) (NTn : Nat) (PPs : List ℚ) (it : Nat × ℚ) :
    (shellRow r NTn PPs it).length
      = if it.1 = 0 ∨ it.1 = NTn - 1 then 1 else PPs.length := by
  unfold shellRow
  by_cases hc : it.1 = 0 ∨ it.1 = NTn - 1
  · rw [if_pos hc, if_pos hc]
    rfl
  · rw [if_neg hc, if_neg hc, List.length_map]

/-- With both poles present and a non-empty azimuth mesh, the location
loop never fails and each (r, theta) row is the corresponding
`shellRow`. -/
theorem shellLocsE_ok (RRs TTs : List ℚ) (p0 : ℚ) (pr : List ℚ) :
    shellLocsE RRs TTs (p0 :: pr) true true
      = .ok (RRs.map (fun r => TTs.enum.map (shellRow r TTs.length (p0 :: pr)))) := by
  unfold shellLocsE
  apply mapME_eq_map
  intro r _
  apply mapME_eq_map
  intro it _
  by_cases hc : it.1 = 0 ∨ it.1 = TTs.length - 1
  · have hc' : (it.1 = 0 ∧ true = true) ∨ (it.1 = TTs.length - 1 ∧ true = true) := by
      rcases hc with h | h
      · exact Or.inl ⟨h, rfl⟩
      · exact Or.inr ⟨h, rfl⟩
    rw [if_pos hc']
    show mapME (fun p => mkLocE r it.2 p) [p0] = _
    rw [mapME_eq_map (fun p => mkLocE r it.2 p) (fun p => mkLocVal r it.2 p) [p0]
      (fun p _ => mkLocE_ok r it.2 p)]
    rw [shellRow, if_pos hc]
    rfl
  · have hc' : ¬ ((it.1 = 0 ∧ true = true) ∨ (it.1 = TTs.length - 1 ∧ true = true)) := by
      simpa using hc
    rw [if_neg hc']
    show mapME (fun p => mkLocE r it.2 p) (p0 :: pr) = _
    rw [mapME_eq_map (fun p => mkLocE r it.2 p) (fun p => mkLocVal r it.2 p) (p0 :: pr)
      (fun p _ => mkLocE_ok r it.2 p)]
    rw [shellRow, if_neg hc]

/-- Each radius band of the shell with both poles present contributes
`(NT - 2) * NP + 2` locations: one per pole row, `NP` for each of the
`NT - 2` intermediate theta rows. -/
theorem shellRows_flatten_length (r : ℚ) (TTs PPs : List ℚ) (h2 : 2 ≤ TTs.length) :
    (TTs.enum.map (shellRow r TTs.length PPs)).flatten.length
      = (TTs.length - 2) * PPs.length + 2 :=
  calc (TTs.enum.map (shellRow r TTs.length PPs)).flatten.length
      = ((TTs.enum.map (shellRow r TTs.length PPs)).map List.length).sum := by
        rw [List.length_flatten]
    _ = (TTs.enum.map (fun it =>
          (fun i => if i = 0 ∨ i = TTs.length - 1 then 1 else PPs.length) it.1)).sum := by
        rw [List.map_map]
        refine congrArg List.sum (List.map_congr_left ?_)
        intro it _
        simp only [Function.comp_apply]
        rw [shellRow_length]
    _ = ((List.range TTs.length).map
          (fun i => if i = 0 ∨ i = TTs.length - 1 then 1 else PPs.length)).sum :=
        congrArg List.sum (enum_map_fst_fun TTs
          (fun i => if i = 0 ∨ i = TTs.length - 1 then 1 else PPs.length))
    _ = (TTs.length - 2) * PPs.length + 2 := sum_pole_weights _ _ h2

/-- Total shell location count with both poles present:
`NR * ((NT - 2) * NP + 2)`. -/
theorem shell_total_length (RRs TTs PPs : List ℚ) (h2 : 2 ≤ TTs.length) :
    (((RRs.map (fun r => TTs.enum.map (shellRow r TTs.length PPs))).map
        List.flatten).flatten).length
      = RRs.length * ((TTs.length - 2) * PPs.length + 2) := by
  rw [List.length_flatten, List.map_map, List.map_map]
  have hc : ∀ r ∈ RRs,
      ((List.length ∘ List.flatten) ∘ fun r => TTs.enum.map (shellRow r TTs.length PPs)) r
        = (fun _ => (TTs.length - 2) * PPs.length + 2) r := by
    intro r _
    simp only [Function.comp_apply]
    exact shellRows_flatten_length r TTs PPs h2
  rw [List.map_congr_left hc, List.map_const', List.sum_replicate, smul_eq_mul]

/-- `SphericalShell.__init__` over the full polar span `[-90, 90]` (with
`NT ≥ 2`, so no 1-point collapse on theta): both pole flags are set and
the locations are exactly the `shellRow` rows. -/
theorem sphericalShell_full_poles (Rmin Rmax : ℚ) (NR NT NP : Int) (Pmin Pmax : ℚ)
    (hRle : Rmin ≤ Rmax) (hR0 : 0 < Rmin)
    (hPle : Pmin ≤ Pmax) (hPlo : -180 ≤ Pmin) (hPhi : Pmax ≤ 180) (hsp : Pmax - Pmin ≠ 360)
    (hNR : 1 ≤ NR) (hNT : 2 ≤ NT) (hNP : 1 ≤ NP) :
    sphericalShell Rmin Rmax NR (-90) 90 NT Pmin Pmax NP
      = .ok ⟨(((linspace (meanCollapse Rmin Rmax NR).1 (meanCollapse Rmin Rmax NR).2
              NR.toNat).map
            (fun r => (linspace (-90 : ℚ) 90 NT.toNat).enum.map
              (shellRow r (linspace (-90 : ℚ) 90 NT.toNat).length
                (linspace (meanCollapse Pmin Pmax NP).1 (meanCollapse Pmin Pmax NP).2
                  NP.toNat)))).map
            List.flatten).flatten,
          (true, true)⟩ := by
  have hTn0 : NT.toNat ≠ 0 := by omega
  have hTn2 : 2 ≤ NT.toNat := by omega
  have hmcT : meanCollapse (-90 : ℚ) 90 NT = (-90, 90) := by
    unfold meanCollapse
    rw [if_neg (by omega : ¬ NT = (1 : Int))]
  have hTTne : linspace (-90 : ℚ) 90 NT.toNat ≠ [] := linspace_ne_nil _ _ _ hTn0
  have hhead : (linspace (-90 : ℚ) 90 NT.toNat).headD 0 = -90 := linspace_head _ _ _ hTn0
  have hlast : (linspace (-90 : ℚ) 90 NT.toNat).getLastD 0 = 90 := linspace_last _ _ _ hTn2
  have hS : (decide ((linspace (-90 : ℚ) 90 NT.toNat).headD 0 = -90)) = true := by
    rw [hhead]
    simp
  have hN : (decide ((linspace (-90 : ℚ) 90 NT.toNat).getLastD 0 = 90)) = true := by
    rw [hlast]
    simp
  have hPne : linspace (meanCollapse Pmin Pmax NP).1 (meanCollapse Pmin Pmax NP).2 NP.toNat
      ≠ [] := linspace_ne_nil _ _ _ (by omega)
  obtain ⟨p0, pr, hP⟩ := List.exists_cons_of_ne_nil hPne
  unfold sphericalShell
  rw [checkSphericalRange_ok _ _ _ _ _ _ _ _ _ hRle (by norm_num) hPle hR0 (by norm_num)
    (by norm_num) hPlo hPhi hsp (by omega) (by omega) (by omega)]
  simp only [Except.bind, bind, hmcT]
  rw [if_neg hTTne, hS, hN, hP, shellLocsE_ok]

/-- When the padded azimuth span stays below 360° (always the case for
`NP = 1`; for `NP ≥ 2` when `(Pmax-Pmin)*NP < 360*(NP-1)`), the seam
branch leaves the mesh untouched: no boundary is dropped and
`PhiCovers2pi` stays false. -/
theorem hiveSeamBelow360_ok (Pmin Pmax : ℚ) (NP : Int)
    (hPle : Pmin ≤ Pmax) (hPlo : -180 ≤ Pmin) (hPhi : Pmax ≤ 180) (hsp : Pmax - Pmin ≠ 360)
    (hphi : NP = 1 ∨ (Pmax - Pmin) * (NP : ℚ) < 360 * ((NP : ℚ) - 1)) :
    hivePhiSeam (hivePhiPad Pmin Pmax NP).1 (hivePhiPad Pmin Pmax NP).2.1
        (hivePhiPad Pmin Pmax NP).2.2 NP
      = .ok (false, (hivePhiPad Pmin Pmax NP).2.2, NP) := by
  rcases hphi with h1 | hlt
  · subst h1
    have hspan : Pmax - Pmin < 360 := lt_of_le_of_ne (by linarith) hsp
    have he : (Pmax + Pmin) / 2 + (Pmax - Pmin) / 2 - ((Pmax + Pmin) / 2 - (Pmax - Pmin) / 2)
        = Pmax - Pmin := by ring
    unfold hivePhiPad hivePhiSeam
    rw [if_pos rfl]
    dsimp only
    rw [he, if_neg hsp, if_neg (not_lt.mpr hspan.le)]
  · have hNP1 : NP ≠ 1 := by
      intro h
      subst h
      push_cast at hlt
      linarith
    have hNq : ((NP : ℚ) - 1) ≠ 0 := by
      intro h
      rw [h] at hlt
      have : (NP : ℚ) = 1 := by linarith
      exact hNP1 (by exact_mod_cast this)
    have hNpos : 0 < (NP : ℚ) - 1 := by
      rcases lt_or_gt_of_ne hNq with h | h
      · exfalso
        have hs0 : 0 ≤ Pmax - Pmin := by linarith
        nlinarith
      · exact h
    have hform : Pmax + (Pmax - Pmin) / ((NP : ℚ) - 1) / 2
        - (Pmin - (Pmax - Pmin) / ((NP : ℚ) - 1) / 2)
        = (Pmax - Pmin) * (NP : ℚ) / ((NP : ℚ) - 1) := by
      field_simp
      ring
    have hpad : Pmax + (Pmax - Pmin) / ((NP : ℚ) - 1) / 2
        - (Pmin - (Pmax - Pmin) / ((NP : ℚ) - 1) / 2) < 360 := by
      rw [hform, div_lt_iff hNpos]
      linarith
    unfold hivePhiPad hivePhiSeam
    rw [if_neg hNP1]
    dsimp only
    rw [if_neg (ne_of_lt hpad), if_neg (not_lt.mpr hpad.le)]

/-- `SphericalHive.__init__` over the full polar span `[-90, 90]`: both
range ends sit exactly on a pole, so (unless `NT = 1`) the theta mesh is
trimmed by half a step at both ends and `ThetaCoversPi` compares
`180 - hdT` with `180`: the flag is true exactly when `NT = 1`. -/
theorem sphericalHive_theta_flag (Rmin Rmax : ℚ) (NR NT NP : Int) (Pmin Pmax : ℚ)
    (hRle : Rmin ≤ Rmax) (hR0 : 0 < Rmin)
    (hPle : Pmin ≤ Pmax) (hPlo : -180 ≤ Pmin) (hPhi : Pmax ≤ 180) (hsp : Pmax - Pmin ≠ 360)
    (hNR : 1 ≤ NR) (hNT : 1 ≤ NT) (hNP : 1 ≤ NP)
    (hphi : NP = 1 ∨ (Pmax - Pmin) * (NP : ℚ) < 360 * ((NP : ℚ) - 1)) :
    (sphericalHive Rmin Rmax NR (-90) 90 NT Pmin Pmax NP).map (fun h => h.ThetaCoversPi)
      = .ok (decide (NT = 1)) := by
  unfold sphericalHive
  rw [checkSphericalRange_ok _ _ _ _ _ _ _ _ _ hRle (by norm_num) hPle hR0 (by norm_num)
    (by norm_num) hPlo hPhi hsp (by omega) (by omega) (by omega)]
  simp only [Except.bind, bind]
  rw [hiveSeamBelow360_ok Pmin Pmax NP hPle hPlo hPhi hsp hphi]
  simp only [Except.bind, bind]
  by_cases h1 : NT = 1
  · subst h1
    have htp : hiveTheta (-90 : ℚ) 90 1 = (-90, 90, 1) := by
      unfold hiveTheta
      rw [if_pos rfl]
      norm_num [Prod.ext_iff]
    rw [htp]
    dsimp only
    have hne2 : linspace (-90 : ℚ) 90 ((1 : Int) + 1).toNat ≠ [] :=
      linspace_ne_nil _ _ _ (by norm_num)
    rw [if_neg hne2]
    have hh : (linspace (-90 : ℚ) 90 ((1 : Int) + 1).toNat).headD 0 = -90 :=
      linspace_head _ _ _ (by norm_num)
    have hl : (linspace (-90 : ℚ) 90 ((1 : Int) + 1).toNat).getLastD 0 = 90 :=
      linspace_last _ _ _ (by norm_num)
    simp only [Except.map, hh, hl]
    norm_num
  · have htp : hiveTheta (-90 : ℚ) 90 NT
        = ((-90 : ℚ) + (90 - (-90 : ℚ)) / ((NT : ℚ) - 1) / 2,
           (90 : ℚ) - (90 - (-90 : ℚ)) / ((NT : ℚ) - 1) / 2, NT - 1 - 1) := by
      unfold hiveTheta
      rw [if_neg h1]
      norm_num [Prod.ext_iff]
    rw [htp]
    dsimp only
    rw [show (NT - 1 - 1 + 1 : Int) = NT - 1 from by omega]
    have hneT : linspace ((-90 : ℚ) + (90 - (-90 : ℚ)) / ((NT : ℚ) - 1) / 2)
        ((90 : ℚ) - (90 - (-90 : ℚ)) / ((NT : ℚ) - 1) / 2) (NT - 1).toNat ≠ [] :=
      linspace_ne_nil _ _ _ (by omega)
    rw [if_neg hneT, decide_eq_false h1]
    by_cases h2 : NT = 2
    · subst h2
      rw [show ((2 : Int) - 1).toNat = 1 from by decide, linspace_single]
      simp only [Except.map, List.headD, List.getLastD]
      norm_num
    · have hNT3 : 3 ≤ NT := by omega
      have hn2 : 2 ≤ (NT - 1).toNat := by omega
      have hh := linspace_head ((-90 : ℚ) + (90 - (-90 : ℚ)) / ((NT : ℚ) - 1) / 2)
          ((90 : ℚ) - (90 - (-90 : ℚ)) / ((NT : ℚ) - 1) / 2) (NT - 1).toNat (by omega)
      have hl := linspace_last ((-90 : ℚ) + (90 - (-90 : ℚ)) / ((NT : ℚ) - 1) / 2)
          ((90 : ℚ) - (90 - (-90 : ℚ)) / ((NT : ℚ) - 1) / 2) (NT - 1).toNat hn2
      have hdpos : 0 < (90 - (-90 : ℚ)) / ((NT : ℚ) - 1) := by
        apply div_pos (by norm_num)
        have h3 : (3 : ℚ) ≤ (NT : ℚ) := by exact_mod_cast hNT3
        linarith
      have hne : (90 : ℚ) - (90 - (-90 : ℚ)) / ((NT : ℚ) - 1) / 2
          - ((-90 : ℚ) + (90 - (-90 : ℚ)) / ((NT : ℚ) - 1) / 2) ≠ 180 := by
        intro hcon
        linarith [hdpos]
      simp only [Except.map, hh, hl]
      rw [decide_eq_false hne]

/-- C4 counterexample: the hive built over the full polar span
`Tmin = -90, Tmax = 90` with `NT = 2` (an input accepted by the range
check) has `ThetaCoversPi = false`, not `true` as claimed: both range
ends sit on a pole, so the theta mesh is trimmed by half a step at each
end and its span no longer reaches 180°. -/
theorem C4_counterexample :
    (sphericalHive 75 125 1 (-90) 90 2 (-10) 10 1).map (fun h => h.ThetaCoversPi)
      = .ok false := by
  have h := sphericalHive_theta_flag 75 125 1 2 1 (-10) 10 (by norm_num) (by norm_num)
    (by norm_num) (by norm_num) (by norm_num) (by norm_num) (by norm_num) (by norm_num)
    (by norm_num) (Or.inl rfl)
  simpa using h

/-- C4 (amended): over the full polar span `Tmin = -90, Tmax = 90` the
hive's `ThetaCoversPi` flag is true only in the degenerate case `NT = 1`;
for every `NT ≥ 2` the pole trimming shrinks the padded theta span below
180° and the flag is false.  The grid part of the claim holds: the shell
sets both `HasPoles` flags and collapses each pole row to exactly one
location per radius value regardless of `NP`, for a total of
`NR * ((NT - 2) * NP + 2)` locations. -/
theorem C4_full_pole_span_flag_and_collapse (Rmin Rmax : ℚ) (NR NT NP : Int)
    (Pmin Pmax : ℚ)
    (hRle : Rmin ≤ Rmax) (hR0 : 0 < Rmin)
    (hPle : Pmin ≤ Pmax) (hPlo : -180 ≤ Pmin) (hPhi : Pmax ≤ 180) (hsp : Pmax - Pmin ≠ 360)
    (hNR : 1 ≤ NR) (hNT : 2 ≤ NT) (hNP : 1 ≤ NP)
    (hphi : NP = 1 ∨ (Pmax - Pmin) * (NP : ℚ) < 360 * ((NP : ℚ) - 1)) :
    ((sphericalHive Rmin Rmax NR (-90) 90 NT Pmin Pmax NP).map (fun h => h.ThetaCoversPi)
        = .ok false) ∧
    ((sphericalHive Rmin Rmax NR (-90) 90 1 Pmin Pmax NP).map (fun h => h.ThetaCoversPi)
        = .ok true) ∧
    (∃ g, sphericalShell Rmin Rmax NR (-90) 90 NT Pmin Pmax NP = .ok g ∧
        g.HasPoles = (true, true) ∧
        g.locs.length = NR.toNat * ((NT.toNat - 2) * NP.toNat + 2)) := by
  refine ⟨?_, ?_, ?_⟩
  · have h := sphericalHive_theta_flag Rmin Rmax NR NT NP Pmin Pmax hRle hR0 hPle hPlo
      hPhi hsp hNR (by omega) hNP hphi
    rw [decide_eq_false (by omega : ¬ NT = 1)] at h
    exact h
  · have h := sphericalHive_theta_flag Rmin Rmax NR 1 NP Pmin Pmax hRle hR0 hPle hPlo
      hPhi hsp hNR (by omega) hNP hphi
    simpa using h
  · refine ⟨_, sphericalShell_full_poles Rmin Rmax NR NT NP Pmin Pmax hRle hR0 hPle hPlo
      hPhi hsp hNR hNT hNP, rfl, ?_⟩
    show ((((linspace (meanCollapse Rmin Rmax NR).1 (meanCollapse Rmin Rmax NR).2
          NR.toNat).map
        (fun r => (linspace (-90 : ℚ) 90 NT.toNat).enum.map
          (shellRow r (linspace (-90 : ℚ) 90 NT.toNat).length
            (linspace (meanCollapse Pmin Pmax NP).1 (meanCollapse Pmin Pmax NP).2
              NP.toNat)))).map
        List.flatten).flatten).length = _
    rw [shell_total_length _ _ _ (by rw [linspace_length]; omega), linspace_length,
      linspace_length, linspace_length]

/-- Witness for the amended C4 at `NR = 2, NT = 3, NP = 4` over the full
polar span: the `NT = 3` hive flag is false, the `NT = 1` hive flag is
true, and the shell holds `2 * ((3 - 2) * 4 + 2) = 12` locations. -/
theorem C4_witness :
    ((sphericalHive 75 125 2 (-90) 90 3 (-20) 20 4).map (fun h => h.ThetaCoversPi)
        = .ok false) ∧
    ((sphericalHive 75 125 2 (-90) 90 1 (-20) 20 4).map (fun h => h.ThetaCoversPi)
        = .ok true) ∧
    (∃ g, sphericalShell 75 125 2 (-90) 90 3 (-20) 20 4 = .ok g ∧
        g.HasPoles = (true, true) ∧ g.locs.length = 12) := by
  have h := C4_full_pole_span_flag_and_collapse 75 125 2 3 4 (-20) 20 (by norm_num)
    (by norm_num) (by norm_num) (by norm_num) (by norm_num) (by norm_num) (by norm_num)
    (by norm_num) (by norm_num) (Or.inr (by norm_num))
  simpa using h

/-! ## `geometry.py`: bodies, transformations, USRBINs and the geometry
aggregate

`geometry.py` carries its own copies of the `GeoObject`/`Body`/`Region`
classes; the `Region` copy was embedded above.  Numeric body payloads
(centres, axes, radii) live over `ℝ`. -/

/-- `geometry.py`'s `Body` (a `GeoObject` plus the payload set by
`Body.__init__`; the default body is a FLUKA `PLA`). -/
structure Body where
  name : Str
  comment : Str
  bType : Str
  P : Vec3R
  V : Vec3R
  Rs : ℝ × ℝ
  lIsRotatable : Bool
  TransformName : Option Str

/-- `Body(myName)` constructor defaults. -/
noncomputable def Body.mk0 (myName : Str) : Body :=
  { name := myName, comment := [], bType := "PLA".toList, P := (0, 0, 0),
    V := (0, 0, 1), Rs := (0, 0), lIsRotatable := true, TransformName := none }

/-- `GeoObject.tailMe` for bodies. -/
def Body.tailMe (b : Body) (s : Str) : Body :=
  { b with comment := tailStr b.comment s }

/-- `GeoObject.rename` for bodies. -/
def Body.rename (b : Body) (newName : Str) (lNotify : Bool) : Body :=
  let b1 := if lNotify then
      b.tailMe ("* NAME CHANGE: FROM ".toList ++ b.name ++ " TO ".toList ++ newName)
    else b
  { b1 with name := newName }

/-- `Body.linkTransformName`: the guard `Tname is not None or Tname!=""`
is always true for the arguments the code passes, so the link is simply
assigned. -/
def Body.linkTransformName (b : Body) (Tname : Option Str) : Body :=
  { b with TransformName := Tname }

/-- One ROT-DEFI card (`geometry.py`'s `RotDefi`): an axis, two angles, a
displacement and a comment. -/
structure RotDefi where
  ax : Int
  phi : ℝ
  th : ℝ
  dd : Vec3R
  comment : Str

/-- `geometry.py`'s `Transformation`: an ID, a name and a list of
ROT-DEFI cards (the inherited `GeoObject` comment is unused: the class
redirects comment handling to `RotDefis[0]`). -/
structure Transformation where
  ID : Int
  name : Str
  RotDefis : List RotDefi

/-- `Transformation.tailMe` writes to `self.RotDefis[0]`: an
`IndexError` when the card list is empty. -/
def Transformation.tailMe (t : Transformation) (s : Str) :
    Except PyErr Transformation :=
  match t.RotDefis with
  | [] => .error .indexError
  | r :: rest => .ok { t with RotDefis := { r with comment := tailStr r.comment s } :: rest }

/-- `GeoObject.rename` for transformations (the notification comment goes
through the overridden `tailMe`). -/
def Transformation.rename (t : Transformation) (newName : Str) (lNotify : Bool) :
    Except PyErr Transformation :=
  if lNotify then do
    let t1 ← t.tailMe ("* NAME CHANGE: FROM ".toList ++ t.name ++ " TO ".toList ++ newName)
    .ok { t1 with name := newName }
  else .ok { t with name := newName }

/-- `geometry.py`'s `Usrbin` (the definition card lines are not needed by
the verified operations and are kept as raw text lines). -/
structure Usrbin where
  name : Str
  comment : Str
  definition : List Str
  TransfName : Str

/-- `GeoObject.tailMe` for USRBINs. -/
def Usrbin.tailMe (u : Usrbin) (s : Str) : Usrbin :=
  { u with comment := tailStr u.comment s }

/-- `GeoObject.rename` for USRBINs. -/
def Usrbin.rename (u : Usrbin) (newName : Str) (lNotify : Bool) : Usrbin :=
  let u1 := if lNotify then
      u.tailMe ("* NAME CHANGE: FROM ".toList ++ u.name ++ " TO ".toList ++ newName)
    else u
  { u1 with name := newName }

/-- `Usrbin.assignTrasf`: assign only a non-empty name. -/
def Usrbin.assignTrasf (u : Usrbin) (trasfName : Str) : Usrbin :=
  if trasfName.length > 0 then { u with TransfName := trasfName } else u

/-- `Geometry.__init__`: empty lists of bodies, regions, transformations
and USRBINs, and an empty title. -/
structure Geometry where
  bods : List Body
  regs : List Region
  tras : List Transformation
  bins : List Usrbin
  title : Str

/-- `Geometry.rename(newName, lNotify)`: refuse prefixes of 8 or more
characters, then rename every body, region, transformation and USRBIN to
`newName + "%0{8-len(newName)}d" % (index+1)`; region definitions get a
sequential find/replace of the old body names by the new ones, USRBINs
must carry a transformation name that resolves among the old
transformation names (fatal otherwise, as is an unnamed one), and body
transformation links are re-pointed (fatal when unresolvable). -/
def Geometry.rename (g : Geometry) (newName : Str) (lNotify : Bool) :
    Except PyErr Geometry :=
  if newName.length ≥ 8 then .error (.exitCode 1)
  else
    let fmt : Nat → Str := fun i => newName ++ zeroPad (8 - newName.length) i
    let oldBodyNames := g.bods.map (fun b => b.name)
    let newBodyNames := (List.range g.bods.length).map (fun i => fmt (i + 1))
    let bods1 := g.bods.enum.map (fun it => it.2.rename (fmt (it.1 + 1)) lNotify)
    let regs1 := g.regs.enum.map (fun it =>
      (it.2.rename (fmt (it.1 + 1)) lNotify).bodyNameReplaceInDef oldBodyNames newBodyNames)
    let oldTrasNames := g.tras.map (fun t => t.name)
    let newTrasNames := (List.range g.tras.length).map (fun i => fmt (i + 1))
    do
    let tras1 ← mapME (fun (it : Nat × Transformation) =>
      it.2.rename (fmt (it.1 + 1)) lNotify) g.tras.enum
    let bins1 ← mapME (fun (it : Nat × Usrbin) => do
      let b1 := it.2.rename (fmt (it.1 + 1)) lNotify
      let trName := b1.TransfName
      if trName.length > 0 then
        match (oldTrasNames.zip newTrasNames).find? (fun pr => decide (pr.1 = trName)) with
        | some pr => Except.ok (b1.assignTrasf pr.2)
        | none => Except.error (.exitCode 1)
      else Except.error (.exitCode 1)) g.bins.enum
    let bods2 ← mapME (fun (b : Body) =>
      match b.TransformName with
      | none => Except.ok b
      | some tn =>
        match oldTrasNames.findIdx? (fun x => decide (x = tn)) with
        | none => Except.error (.exitCode 1)
        | some ii => Except.ok (b.linkTransformName (some (newTrasNames.getD ii [])))) bods1
    Except.ok { g with bods := bods2, regs := regs1, tras := tras1, bins := bins1 }

section RenameLemmas

theorem body_rename_name (b : Body) (n : Str) (ln : Bool) : (b.rename n ln).name = n := by
  cases ln <;> rfl

theorem Body.rename_TransformName (b : Body) (n : Str) (ln : Bool) :
    (b.rename n ln).TransformName = b.TransformName := by
  cases ln <;> rfl

theorem region_rename_name (r : Region) (n : Str) (ln : Bool) : (r.rename n ln).name = n := by
  cases ln <;> rfl

theorem Region.rename_definition (r : Region) (n : Str) (ln : Bool) :
    (r.rename n ln).definition = r.definition := by
  cases ln <;> rfl

theorem bodyNameReplaceInDef_name (r : Region) (o n : List Str) :
    (r.bodyNameReplaceInDef o n).name = r.name := rfl

theorem bodyNameReplaceInDef_definition (r : Region) (o n : List Str) :
    (r.bodyNameReplaceInDef o n).definition
      = (o.zip n).foldl (fun d pr => pyReplace d pr.1 pr.2) r.definition := rfl

end RenameLemmas

/-- A small geometry exercising `Geometry.rename`: four bodies (the last
named `R000004`) and one region whose definition references that body. -/
noncomputable def renameExampleGeo : Geometry :=
  { bods := [Body.mk0 "BDYA".toList, Body.mk0 "BDYB".toList,
             Body.mk0 "BDYC".toList, Body.mk0 "R000004".toList],
    regs := [{ Region.mk0 "REGA".toList with definition := "+R000004".toList }],
    tras := [], bins := [], title := [] }

/-- C7 counterexample: renaming with prefix `GR0` gives the 4th body the
name `GR000004` (the full 8-character budget: prefix plus 5 zero-padded
digits), not `GR00004` as the claim's example says; and the rewritten
region definition still *contains* an occurrence of the old body name
`R000004`, because that old name survives as a substring of the new name
`GR000004`. -/
theorem C7_counterexample :
    (Geometry.rename renameExampleGeo "GR0".toList false).map
        (fun g => ((g.bods.map (fun b => b.name)).getD 3 [],
                   occursIn "R000004".toList ((g.regs.map (fun r => r.definition)).getD 0 [])))
      = .ok ("GR000004".toList, true) := by
  rfl

/-- C7 (amended): for a geometry without transformations and USRBINs and
with no body transform links, renaming with a prefix of fewer than 8
characters succeeds; every body and region is renamed to the prefix
followed by the 1-based index zero-padded so that the whole name fills
the fixed 8-character budget (so index 3 with prefix `GR0` gives
`GR000004`), and every region definition is the *sequential textual*
find/replace of the old body names by the new ones — which, as the
counterexample shows, need not leave zero occurrences of an old name when
an old name survives as a substring of a new one. -/
theorem C7_rename_names (g : Geometry) (newName : Str) (lNotify : Bool)
    (hlen : newName.length < 8) (htras : g.tras = []) (hbins : g.bins = [])
    (hlink : ∀ b ∈ g.bods, b.TransformName = none) :
    (g.rename newName lNotify).map
        (fun gr => (gr.bods.map (fun b => b.name), gr.regs.map (fun r => r.name),
                    gr.regs.map (fun r => r.definition)))
      = .ok ((List.range g.bods.length).map
               (fun i => newName ++ zeroPad (8 - newName.length) (i + 1)),
             (List.range g.regs.length).map
               (fun i => newName ++ zeroPad (8 - newName.length) (i + 1)),
             g.regs.map (fun r =>
               ((g.bods.map (fun b => b.name)).zip
                   ((List.range g.bods.length).map
                     (fun i => newName ++ zeroPad (8 - newName.length) (i + 1)))).foldl
                 (fun d pr => pyReplace d pr.1 pr.2) r.definition)) := by
  unfold Geometry.rename
  rw [if_neg (not_le.mpr hlen), htras, hbins]
  show (Except.bind
        (mapME (fun (b : Body) =>
            match b.TransformName with
            | none => Except.ok b
            | some _ => Except.error (PyErr.exitCode 1))
          (g.bods.enum.map (fun it =>
            Body.rename it.2 (newName ++ zeroPad (8 - newName.length) (it.1 + 1)) lNotify)))
        (fun bods2 => Except.ok
          ({ bods := bods2,
             regs := g.regs.enum.map (fun it =>
               Region.bodyNameReplaceInDef
                 (Region.rename it.2 (newName ++ zeroPad (8 - newName.length) (it.1 + 1))
                   lNotify)
                 (g.bods.map (fun b => b.name))
                 ((List.range g.bods.length).map
                   (fun i => newName ++ zeroPad (8 - newName.length) (i + 1)))),
             tras := [], bins := [], title := g.title } : Geometry))).map
      (fun gr => (gr.bods.map (fun b => b.name), gr.regs.map (fun r => r.name),
                  gr.regs.map (fun r => r.definition))) = _
  rw [mapME_eq_map
    (fun (b : Body) =>
      match b.TransformName with
      | none => Except.ok b
      | some _ => Except.error (PyErr.exitCode 1))
    (fun b => b)
    (g.bods.enum.map (fun it =>
      Body.rename it.2 (newName ++ zeroPad (8 - newName.length) (it.1 + 1)) lNotify))
    ?hok]
  case hok =>
    intro b hb
    obtain ⟨it, hit, rfl⟩ := List.mem_map.mp hb
    have h2 : it.2 ∈ g.bods := by
      have := List.mem_enum_iff_get?.mp hit
      exact List.get?_mem this
    beta_reduce
    rw [Body.rename_TransformName, hlink it.2 h2]
  show Except.ok _ = Except.ok _
  simp only [Except.ok.injEq, Prod.mk.injEq]
  refine ⟨?_, ?_, ?_⟩
  · apply List.ext_getElem
    · simp [List.enum_length]
    · intro i h1 h2
      simp only [List.getElem_map, List.getElem_enum, List.getElem_range]
      rw [body_rename_name]
  · apply List.ext_getElem
    · simp [List.enum_length]
    · intro i h1 h2
      simp only [List.getElem_map, List.getElem_enum, List.getElem_range]
      rw [bodyNameReplaceInDef_name, region_rename_name]
  · apply List.ext_getElem
    · simp [List.enum_length]
    · intro i h1 h2
      simp only [List.getElem_map, List.getElem_enum]
      rw [bodyNameReplaceInDef_definition, Region.rename_definition]

/-- Witness for the amended C7 on the example geometry: the bodies become
`GR000001..GR000004` (index 3 → `GR000004`), the region is renamed the
same way, and its definition becomes `+GR000004`. -/
theorem C7_witness :
    (Geometry.rename renameExampleGeo "GR0".toList false).map
        (fun gr => (gr.bods.map (fun b => b.name), gr.regs.map (fun r => r.name),
                    gr.regs.map (fun r => r.definition)))
      = .ok (["GR000001".toList, "GR000002".toList, "GR000003".toList, "GR000004".toList],
             ["GR000001".toList],
             ["+GR000004".toList]) := by
  have h := C7_rename_names renameExampleGeo "GR0".toList false (by decide) rfl rfl
    (by intro b hb
        simp only [renameExampleGeo, Body.mk0, List.mem_cons, List.not_mem_nil, or_false] at hb
        rcases hb with rfl | rfl | rfl | rfl <;> rfl)
  exact h.trans (by rfl)

/-- Componentwise vector sum. -/
def vadd (a b : Vec3R) : Vec3R := (a.1 + b.1, a.2.1 + b.2.1, a.2.2 + b.2.2)

/-- Scalar multiple of a vector. -/
def vscale (s : ℝ) (v : Vec3R) : Vec3R := (s * v.1, s * v.2.1, s * v.2.2)

/-- Python `str.upper()` (ASCII names). -/
def pyUpper (s : Str) : Str := s.map Char.toUpper

/-- `geometry.py`'s `Body.resize`: only an `RCC` is resized (about its
mid-point, along its unit axis); every other body type is silently left
alone.  `np.linalg.norm` is the square root of `normSq`. -/
noncomputable def Body.resize (b : Body) (newL : ℝ) : Body :=
  if b.bType = "RCC".toList then
    let meanPoint := vadd b.P (vscale (1 / 2) b.V)
    let versor := vscale (1 / Real.sqrt (normSq b.V)) b.V
    let V2 := vscale newL versor
    { b with V := V2, P := vsub meanPoint (vscale (1 / 2) V2) }
  else b

/-- `Geometry.ret("bod", myName)`: the first body with the given name and
its index, or `(None, -1)`. -/
def Geometry.retBod (g : Geometry) (myName : Str) : Option Body × Int :=
  match g.bods.findIdx? (fun b => decide (b.name = myName)) with
  | some i => (g.bods.get? i, (i : Int))
  | none => (none, -1)

/-- `Geometry.ret("reg", myName)`: the first region with the given name
and its index, or `(None, -1)`. -/
def Geometry.retReg (g : Geometry) (myName : Str) : Option Region × Int :=
  match g.regs.findIdx? (fun r => decide (r.name = myName)) with
  | some i => (g.regs.get? i, (i : Int))
  | none => (none, -1)

/-- `Geometry.resizeBodies(newL, whichBods)` for a list argument: resize
each named body in place; a name that resolves to no body makes
`ret` return `None`, and `None.resize(newL)` raises `AttributeError`. -/
noncomputable def Geometry.resizeBodies (g : Geometry) (newL : ℝ) (whichBods : List Str) :
    Except PyErr Geometry :=
  let bods2mod := if "ALL".toList ∈ whichBods.map pyUpper
    then g.bods.map (fun b => b.name) else whichBods
  bods2mod.foldl (fun acc name => do
    let gcur ← acc
    match gcur.retBod name with
    | (some b, i) => Except.ok { gcur with bods := gcur.bods.set i.toNat (b.resize newL) }
    | (none, _) => Except.error .attributeError) (Except.ok g)

/-- `Geometry.appendGeometries`: concatenate the body/region/USRBIN lists
and renumber the appended transformations (`ID = ii + len(new.tras)` with
`ii` counted from 1). -/
def Geometry.appendGeometries (myGeos : List Geometry) (myTitle : Option Str) : Geometry :=
  let new := myGeos.foldl (fun (acc : Geometry) geo =>
    { acc with
      bods := acc.bods ++ geo.bods,
      regs := acc.regs ++ geo.regs,
      tras := acc.tras ++ geo.tras.enum.map
        (fun it => { it.2 with ID := ((it.1 + 1 : Nat) : Int) + acc.tras.length }),
      bins := acc.bins ++ geo.bins })
    (⟨[], [], [], [], []⟩ : Geometry)
  { new with title := myTitle.getD "appended geometries".toList }

open Classical in
/-- `Geometry.MergeGeos(hiveGeo, gridGeo, myTitle, prec)`: regions of the
grid with `rCont == -1` are matched against regions of the hive with
`rCont == 1` by proximity of their reference centres
(`np.linalg.norm(...) < prec`, embedded as `normSq ... < prec^2`).  When
the hive's containers have pairwise distinct centres, each proximity hit
resizes the grid's bodies referenced by the grid region and merges the
hive region into it, after which the merged hive regions are dropped from
the hive (an unresolvable name makes `pop(-1)` drop the *last* region);
otherwise, when the grid's contained regions have pairwise distinct
centres, the grid regions are merged into the hive regions (without any
resizing) and dropped from the grid; duplicated centres on both sides are
fatal.  A proximity miss is silent: the loop simply moves on.  `np.unique`
is a (sorted) deduplication; only its length is compared, so it is
embedded as `List.dedup`. -/
noncomputable def Geometry.mergeGeos (hiveGeo gridGeo : Geometry) (myTitle : Option Str)
    (prec : ℝ) : Except PyErr Geometry :=
  let iRhg := ((hiveGeo.regs.enum.filter (fun it => decide (it.2.rCont = 1))).map
    (fun it => it.1))
  let ucRhg := ((hiveGeo.regs.filter (fun r => decide (r.rCont = 1))).map
    (fun r => r.rCent)).dedup
  let iRgg := ((gridGeo.regs.enum.filter (fun it => decide (it.2.rCont = -1))).map
    (fun it => it.1))
  let ucRgg := ((gridGeo.regs.filter (fun r => decide (r.rCont = -1))).map
    (fun r => r.rCent)).dedup
  if iRhg.length = ucRhg.length then do
    let st ← iRhg.foldl (fun acc jRhg =>
      iRgg.foldl (fun acc2 jRgg => do
        let (gg, removeRegs) ← acc2
        let hreg := hiveGeo.regs.getD jRhg (Region.mk0 [])
        let greg := gg.regs.getD jRgg (Region.mk0 [])
        if normSq (vsub greg.rCent hreg.rCent) < prec ^ 2 then
          let whichBods ← greg.retBodiesInDef
          let gg2 ← gg.resizeBodies hreg.rMaxLen whichBods
          let gg3 := { gg2 with regs := gg2.regs.set jRgg (greg.merge hreg) }
          let rr2 := if hreg.name ∈ removeRegs then removeRegs
            else removeRegs ++ [hreg.name]
          Except.ok (gg3, rr2)
        else Except.ok (gg, removeRegs)) acc)
      (Except.ok (gridGeo, ([] : List Str)))
    let hive2 := st.2.foldl (fun hg removeReg =>
      let ir := (hg.retReg removeReg).2
      { hg with regs := if ir = -1 then hg.regs.dropLast else hg.regs.eraseIdx ir.toNat })
      hiveGeo
    Except.ok (Geometry.appendGeometries [hive2, st.1] myTitle)
  else if iRgg.length = ucRgg.length then do
    let st ← iRgg.foldl (fun acc jRgg =>
      iRhg.foldl (fun acc2 jRhg => do
        let (hg, removeRegs) ← acc2
        let hreg := hg.regs.getD jRhg (Region.mk0 [])
        let greg := gridGeo.regs.getD jRgg (Region.mk0 [])
        if normSq (vsub hreg.rCent greg.rCent) < prec ^ 2 then
          let hg2 := { hg with regs := hg.regs.set jRhg (hreg.merge greg) }
          let rr2 := if greg.name ∈ removeRegs then removeRegs
            else removeRegs ++ [greg.name]
          Except.ok (hg2, rr2)
        else Except.ok (hg, removeRegs)) acc)
      (Except.ok (hiveGeo, ([] : List Str)))
    let grid2 := st.2.foldl (fun gg removeReg =>
      let ir := (gg.retReg removeReg).2
      { gg with regs := if ir = -1 then gg.regs.dropLast else gg.regs.eraseIdx ir.toNat })
      gridGeo
    Except.ok (Geometry.appendGeometries [st.1, grid2] myTitle)
  else Except.error (.exitCode 1)

/-- The hive side of a minimal merge: one container region at
`(0, 0, 100)`. -/
noncomputable def hiveExampleGeo : Geometry :=
  { bods := [],
    regs := [{ Region.mk0 "HIVEREG1".toList with
               definition := "+HIVEBD1".toList, rCont := 1,
               rCent := ((0 : ℝ), (0 : ℝ), (100 : ℝ)), rMaxLen := 200 }],
    tras := [], bins := [], title := [] }

/-- The grid side of a minimal merge: one body and one to-be-contained
region at `(0, 0, z)`. -/
noncomputable def gridExampleGeo (z : ℝ) : Geometry :=
  { bods := [Body.mk0 "GRIDBD1".toList],
    regs := [{ Region.mk0 "GRIDREG1".toList with
               definition := "+GRIDBD1".toList, rCont := -1,
               rCent := ((0 : ℝ), (0 : ℝ), z) }],
    tras := [], bins := [], title := [] }

/-- C2 counterexample: a container at `(0, 0, 100)` and a to-be-contained
region at `(0, 0, 100.01)` — outside the default `0.001` tolerance — do
*not* produce a fatal "no match" error: the proximity loop silently never
fires, `MergeGeos` succeeds, and both regions appear untouched in the
output. -/
theorem C2_counterexample :
    (Geometry.mergeGeos hiveExampleGeo (gridExampleGeo (100 + 1 / 100)) none (1 / 1000)).map
      (fun g => (g.regs.map (fun r => r.name), g.regs.map (fun r => r.definition)))
    = .ok (["HIVEREG1".toList, "GRIDREG1".toList],
           ["+HIVEBD1".toList, "+GRIDBD1".toList]) := by
  have hc : ¬ normSq (vsub ((0 : ℝ), (0 : ℝ), (10001 / 100 : ℝ)) ((0 : ℝ), (0 : ℝ), (100 : ℝ)))
      < 1 / 1000000 := by
    simp only [normSq, vsub]
    norm_num
  unfold Geometry.mergeGeos hiveExampleGeo gridExampleGeo
  norm_num [List.filter, List.enum, List.enumFrom, List.dedup_cons_of_not_mem,
    Except.bind, bind, List.foldl]
  rw [if_neg hc]
  rfl

/-- C2 (amended): in `MergeGeos`, a to-be-contained grid region whose
reference point lies within the tolerance of the container's reference
point is merged into it (the container disappears from the output, its
definition conjoined into the grid region's); a region outside the
tolerance is *silently left untouched* — there is no fatal "no match"
error, and no ambiguity check ties a container to exactly one region. -/
theorem C2_merge_by_proximity_and_silent_no_match (z : ℝ) :
    ((z - 100) ^ 2 < (1 / 1000 : ℝ) ^ 2 →
      (Geometry.mergeGeos hiveExampleGeo (gridExampleGeo z) none (1 / 1000)).map
          (fun g => (g.regs.map (fun r => r.name), g.regs.map (fun r => r.definition)))
        = .ok (["GRIDREG1".toList], ["| +GRIDBD1 +HIVEBD1".toList])) ∧
    (¬ (z - 100) ^ 2 < (1 / 1000 : ℝ) ^ 2 →
      (Geometry.mergeGeos hiveExampleGeo (gridExampleGeo z) none (1 / 1000)).map
          (fun g => (g.regs.map (fun r => r.name), g.regs.map (fun r => r.definition)))
        = .ok (["HIVEREG1".toList, "GRIDREG1".toList],
               ["+HIVEBD1".toList, "+GRIDBD1".toList])) := by
  constructor
  · intro h
    have hc : normSq (vsub ((0 : ℝ), (0 : ℝ), z) ((0 : ℝ), (0 : ℝ), (100 : ℝ)))
        < 1 / 1000000 := by
      simp only [normSq, vsub]
      norm_num
      nlinarith [h]
    unfold Geometry.mergeGeos hiveExampleGeo gridExampleGeo
    norm_num [List.filter, List.enum, List.enumFrom, List.dedup_cons_of_not_mem,
      Except.bind, bind, List.foldl]
    rw [if_pos hc]
    rfl
  · intro h
    have hc : ¬ normSq (vsub ((0 : ℝ), (0 : ℝ), z) ((0 : ℝ), (0 : ℝ), (100 : ℝ)))
        < 1 / 1000000 := by
      simp only [normSq, vsub]
      norm_num
      rw [not_lt] at h
      nlinarith [h]
    unfold Geometry.mergeGeos hiveExampleGeo gridExampleGeo
    norm_num [List.filter, List.enum, List.enumFrom, List.dedup_cons_of_not_mem,
      Except.bind, bind, List.foldl]
    rw [if_neg hc]
    rfl

/-- Witness for the amended C2: `z = 100.0005` (within tolerance) merges,
`z = 100.02` (outside tolerance) leaves both regions untouched. -/
theorem C2_witness :
    ((Geometry.mergeGeos hiveExampleGeo (gridExampleGeo (100 + 5 / 10000)) none
          (1 / 1000)).map
        (fun g => (g.regs.map (fun r => r.name), g.regs.map (fun r => r.definition)))
      = .ok (["GRIDREG1".toList], ["| +GRIDBD1 +HIVEBD1".toList])) ∧
    ((Geometry.mergeGeos hiveExampleGeo (gridExampleGeo (100 + 1 / 50)) none
          (1 / 1000)).map
        (fun g => (g.regs.map (fun r => r.name), g.regs.map (fun r => r.definition)))
      = .ok (["HIVEREG1".toList, "GRIDREG1".toList],
             ["+HIVEBD1".toList, "+GRIDBD1".toList])) :=
  ⟨(C2_merge_by_proximity_and_silent_no_match (100 + 5 / 10000)).1 (by norm_num),
   (C2_merge_by_proximity_and_silent_no_match (100 + 1 / 50)).2 (by norm_num)⟩

/-- `Body.rotate(myMat=...)`: apply a rotation matrix to the centre and
the axis. -/
noncomputable def Body.rotate (b : Body) (m : Mat3 ℝ) : Body :=
  { b with P := m.mulArr b.P, V := m.mulArr b.V }

/-- `Grid.ret("POINT", iEl)`: the placement point of location `iEl`
(`IndexError` out of range; the code only uses non-negative indices). -/
def gridRetPoint (g : ShellGrid) (iEl : Nat) : Except PyErr Vec3R :=
  match g.locs.get? iEl with
  | some loc => .ok loc.P
  | none => .error .indexError

/-- Python list indexing `l[i]` with negative-index wrap-around and
`IndexError` out of range. -/
def pyGet {α : Type} (l : List α) (i : Int) : Except PyErr α :=
  let j := if i < 0 then i + l.length else i
  match l.get? j.toNat with
  | some a => if 0 ≤ j then .ok a else .error .indexError
  | none => .error .indexError

/-- The concentric spheres of `DefineHive_SphericalShell`
(`HVRAD%03i`, 1-based). -/
noncomputable def hiveSpheres (RRs : List ℚ) : List Body :=
  RRs.enum.map (fun it =>
    let b := (Body.mk0 []).rename ("HVRAD".toList ++ zeroPad 3 (it.1 + 1)) false
    { b with bType := "SPH".toList, Rs := (((it.2 : ℚ) : ℝ), b.Rs.2) })

/-- The circles of latitude of `DefineHive_SphericalShell`
(`HVTHT%03i`): the equator is the plane `y = 0`, every other latitude a
`TRC` whose aperture collapses to a tiny cone at a pole covered by the
hive. -/
noncomputable def hiveThetas (RRs TTs : List ℚ) (thetaCoversPi : Bool) : List Body :=
  TTs.enum.map (fun it =>
    let b := (Body.mk0 []).rename ("HVTHT".toList ++ zeroPad 3 (it.1 + 1)) false
    if it.2 = 0 then { b with V := (0, 1, 0) }
    else
      let hh := RRs.getLastD 0 + 10
      let r0 : ℝ :=
        if thetaCoversPi = true ∧ (it.1 + 1 = 1 ∨ it.1 + 1 = TTs.length) then
          ((hh : ℚ) : ℝ) * (1 / 10000)
        else ((hh : ℚ) : ℝ) * Real.tan (rad (((90 - |it.2| : ℚ) : ℝ)))
      let hh2 := if it.2 > 0 then -hh else hh
      { b with
        bType := "TRC".toList
        Rs := (r0, b.Rs.2)
        V := (0, ((hh2 : ℚ) : ℝ), 0)
        P := (0, ((-hh2 : ℚ) : ℝ), 0) })

/-- The meridian planes of `DefineHive_SphericalShell` (`HVPHI%03i`):
the plane `x = 0` rotated by each azimuth boundary about axis 2. -/
noncomputable def hivePhis (PPs : List ℚ) : List Body :=
  PPs.enum.map (fun it =>
    let b := (Body.mk0 []).rename ("HVPHI".toList ++ zeroPad 3 (it.1 + 1)) false
    Body.rotate { b with V := ((1 : ℝ), 0, 0) } (rotFill (rad ((it.2 : ℚ) : ℝ)) 2))

/-- One cell zone of the hive: radial band, latitude band (the sign
pattern follows the latitudes' positions relative to the equator; the
three source conditions are exhaustive) and azimuth band (`phis[iP-1]`
wraps to the last plane when `iP = 0`). -/
def cellZone (spheresN thetasN phisN : List Str) (TTs : List ℚ) (iR iT iP : Nat) : Str :=
  let rDef := '+' :: padRight 8 (spheresN.getD iR []) ++ ' ' :: '-' ::
    padRight 8 (spheresN.getD (iR - 1) [])
  let tDef := if TTs.getD iT 0 ≤ 0 then
      '+' :: padRight 8 (thetasN.getD iT []) ++ ' ' :: '-' ::
        padRight 8 (thetasN.getD (iT - 1) [])
    else if TTs.getD (iT - 1) 0 = 0 ∨ (TTs.getD iT 0 > 0 ∧ TTs.getD (iT - 1) 0 < 0) then
      '-' :: padRight 8 (thetasN.getD iT []) ++ ' ' :: '-' ::
        padRight 8 (thetasN.getD (iT - 1) [])
    else
      '-' :: padRight 8 (thetasN.getD iT []) ++ ' ' :: '+' ::
        padRight 8 (thetasN.getD (iT - 1) [])
  let pDef := '+' :: padRight 8 (phisN.getD iP []) ++ ' ' :: '-' ::
    padRight 8 (if iP = 0 then phisN.getLastD [] else phisN.getD (iP - 1) [])
  rDef ++ ' ' :: tDef ++ ' ' :: pDef

/-- The ordered cell prototypes (zone text and max-length computation) of
`DefineHive_SphericalShell`: per radial band, an optional south-pole
cell, the regular (theta, phi) cells, then an optional north-pole cell;
the regular max-length computation indexes `PPs` with the *theta* index
(as the source does), and may hence raise `IndexError`. -/
noncomputable def hiveCellProtos (RRs TTs PPs : List ℚ) (spheresN thetasN phisN : List Str)
    (hasS hasN lWrap : Bool) : List (Str × Except PyErr ℝ) :=
  let iPs := (List.range' 1 (phisN.length - 1)) ++ (if lWrap = true then [0] else [])
  (List.range' 1 (spheresN.length - 1)).flatMap (fun iR =>
    (if hasS = true then
      [('+' :: padRight 8 (spheresN.getD iR []) ++ ' ' :: '-' ::
          padRight 8 (spheresN.getD (iR - 1) []) ++ ' ' :: '+' ::
          padRight 8 (thetasN.headD []),
        Except.ok ((11 / 10 : ℝ) * max (((RRs.getD iR 0 - RRs.getD (iR - 1) 0 : ℚ) : ℝ))
          (((RRs.getD iR 0 : ℚ) : ℝ) * 2 * |rad (((TTs.headD 0 - 90 : ℚ) : ℝ))|)))]
    else []) ++
    ((List.range' 1 (thetasN.length - 1)).flatMap (fun iT =>
      iPs.map (fun iP =>
        (cellZone spheresN thetasN phisN TTs iR iT iP,
         do
           let pT ← pyGet PPs (iT : Int)
           let pT1 ← pyGet PPs ((iT : Int) - 1)
           Except.ok ((11 / 10 : ℝ) * max (max
             (((RRs.getD iR 0 - RRs.getD (iR - 1) 0 : ℚ) : ℝ))
             (((RRs.getD iR 0 : ℚ) : ℝ) *
               rad (((TTs.getD iT 0 - TTs.getD (iT - 1) 0 : ℚ) : ℝ))))
             (((RRs.getD iR 0 : ℚ) : ℝ) * rad (((pT - pT1 : ℚ) : ℝ)))))))) ++
    (if hasN = true then
      [('+' :: padRight 8 (spheresN.getD iR []) ++ ' ' :: '-' ::
          padRight 8 (spheresN.getD (iR - 1) []) ++ ' ' :: '+' ::
          padRight 8 (thetasN.getLastD []),
        Except.ok ((11 / 10 : ℝ) * max (((RRs.getD iR 0 - RRs.getD (iR - 1) 0 : ℚ) : ℝ))
          (((RRs.getD iR 0 : ℚ) : ℝ) * 2 * |rad (((90 - TTs.getLastD 0 : ℚ) : ℝ))|)))]
    else []))

/-- One `HVCL%04i` cell region: named after its running index, assigned
the default material, given its zone, and tagged as a container with the
grid location as reference centre and the computed max length. -/
noncomputable def hiveCellRegion (cellGrid : ShellGrid) (defMat : Str) (iHive : Nat)
    (pr : Str × Except PyErr ℝ) : Except PyErr Region := do
  let c ← gridRetPoint cellGrid iHive
  let rml ← pr.2
  Except.ok (((((Region.mk0 []).rename ("HVCL".toList ++ zeroPad 4 iHive) false).assignMat
    defMat).addZone pr.1 16).initContW 1 c rml)

/-- `Geometry.DefineHive_SphericalShell` (default configuration:
`lWrapBHaround=False`): build the cell grid and the hive meshes, the
boundary bodies, the `HV_OUTER`/`HV_INNER`/`HVAROUND` service regions and
one `HVCL%04i` container cell per grid location.  Display comments
(`"%g"`-formatted) and the geometry title header are not modelled. -/
noncomputable def defineHiveSphericalShell (Rmin Rmax : ℚ) (NR : Int) (Tmin Tmax : ℚ)
    (NT : Int) (Pmin Pmax : ℚ) (NP : Int) (defMat tmpTitle : Str) :
    Except PyErr Geometry := do
  let cellGrid ← sphericalShell Rmin Rmax NR Tmin Tmax NT Pmin Pmax NP
  let myHive ← sphericalHive Rmin Rmax NR Tmin Tmax NT Pmin Pmax NP
  let RRs := myHive.RRs
  let TTs := myHive.TTs
  let PPs := myHive.PPs
  let spheresN := (hiveSpheres RRs).map (fun b => b.name)
  let thetasN := (hiveThetas RRs TTs myHive.ThetaCoversPi).map (fun b => b.name)
  let phisN := (hivePhis PPs).map (fun b => b.name)
  let hvOuter := ((((Region.mk0 []).rename "HV_OUTER".toList false).assignMat defMat).addZone
    ('-' :: padRight 8 (spheresN.getLastD [])) 16).initContW (-1) (0, 0, 0) 0
  let hvInner := (((Region.mk0 []).rename "HV_INNER".toList false).assignMat defMat).addZone
    ('+' :: padRight 8 (spheresN.headD [])) 16
  let hvA0 := ((Region.mk0 []).rename "HVAROUND".toList false).assignMat defMat
  let hvA1 := if cellGrid.HasPoles.2 = false then
      hvA0.addZone ('+' :: padRight 8 (spheresN.getLastD []) ++ ' ' :: '-' ::
        padRight 8 (spheresN.headD []) ++ ' ' :: '+' :: padRight 8 (thetasN.getLastD [])) 16
    else hvA0
  let hvA2 := if cellGrid.HasPoles.1 = false then
      hvA1.addZone ('+' :: padRight 8 (spheresN.getLastD []) ++ ' ' :: '-' ::
        padRight 8 (spheresN.headD []) ++ ' ' :: '+' :: padRight 8 (thetasN.headD [])) 16
    else hvA1
  let hvA3 := if myHive.PhiCovers2pi = false then
      hvA2.addZone ('+' :: padRight 8 (spheresN.getLastD []) ++ ' ' :: '-' ::
        padRight 8 (spheresN.headD []) ++ ' ' :: '-' :: padRight 8 (thetasN.getLastD []) ++
        ' ' :: '-' :: padRight 8 (thetasN.headD []) ++ ' ' :: '-' ::
        padRight 8 (phisN.getLastD []) ++ ' ' :: '+' :: padRight 8 (phisN.headD [])) 16
    else hvA2
  let hvA4 := if PPs.getLastD 0 - PPs.headD 0 < 180 then
      (hvA3.addZone ('+' :: padRight 8 (spheresN.getLastD []) ++ ' ' :: '-' ::
        padRight 8 (spheresN.headD []) ++ ' ' :: '-' :: padRight 8 (thetasN.getLastD []) ++
        ' ' :: '-' :: padRight 8 (thetasN.headD []) ++ ' ' :: '-' ::
        padRight 8 (phisN.getLastD []) ++ ' ' :: '-' :: padRight 8 (phisN.headD [])) 16).addZone
        ('+' :: padRight 8 (spheresN.getLastD []) ++ ' ' :: '-' ::
        padRight 8 (spheresN.headD []) ++ ' ' :: '-' :: padRight 8 (thetasN.getLastD []) ++
        ' ' :: '-' :: padRight 8 (thetasN.headD []) ++ ' ' :: '+' ::
        padRight 8 (phisN.getLastD []) ++ ' ' :: '+' :: padRight 8 (phisN.headD [])) 16
    else hvA3
  let regsHead := [hvOuter, hvInner] ++ (if hvA4.isNonEmpty = true then [hvA4] else [])
  let cells ← mapME (fun it => hiveCellRegion cellGrid defMat it.1 it.2)
    (hiveCellProtos RRs TTs PPs spheresN thetasN phisN cellGrid.HasPoles.1
      cellGrid.HasPoles.2 myHive.PhiCovers2pi).enum
  Except.ok { bods := hiveSpheres RRs ++ hiveThetas RRs TTs myHive.ThetaCoversPi ++ hivePhis PPs,
              regs := regsHead ++ cells, tras := [], bins := [], title := tmpTitle }

section HiveCellLemmas

theorem Region.rename_rCont (r : Region) (n : Str) (ln : Bool) :
    (r.rename n ln).rCont = r.rCont := by
  cases ln <;> rfl

theorem assignMat_rCont (r : Region) (m : Str) : (r.assignMat m).rCont = r.rCont := rfl

theorem addZone_rCont (r : Region) (z : Str) (n : Nat) : (r.addZone z n).rCont = r.rCont := by
  unfold Region.addZone
  split
  · rfl
  · rfl

theorem addZone_name (r : Region) (z : Str) (n : Nat) : (r.addZone z n).name = r.name := by
  unfold Region.addZone
  split
  · rfl
  · rfl

theorem initContW_rCont (r : Region) (c : Int) (p : Vec3R) (m : ℝ) :
    (r.initContW c p m).rCont = c := rfl

theorem initContW_name (r : Region) (c : Int) (p : Vec3R) (m : ℝ) :
    (r.initContW c p m).name = r.name := rfl

theorem assignMat_name (r : Region) (m : Str) : (r.assignMat m).name = r.name := rfl

theorem leadsWith_self_append (p s : Str) : leadsWith p (p ++ s) = true := by
  induction p with
  | nil => rfl
  | cons a as ih => simp [leadsWith, ih]

/-- An `Except`-valued map where every element succeeds with a result
satisfying `p` produces a list of the same length, all of whose members
satisfy `p`. -/
theorem mapME_count {β γ : Type} (f : β → Except PyErr γ) (l : List β) (p : γ → Prop)
    (h : ∀ b ∈ l, ∃ c, f b = .ok c ∧ p c) :
    ∃ out, mapME f l = .ok out ∧ out.length = l.length ∧ ∀ c ∈ out, p c := by
  induction l with
  | nil => exact ⟨[], rfl, rfl, by simp⟩
  | cons b bs ih =>
    obtain ⟨c, hc, hpc⟩ := h b (List.mem_cons_self _ _)
    obtain ⟨out, hout, hlen, hall⟩ := ih (fun x hx => h x (List.mem_cons_of_mem _ hx))
    refine ⟨c :: out, ?_, by simp [hlen], ?_⟩
    · simp [mapME, hc, hout, Except.bind, bind]
    · intro x hx
      rcases List.mem_cons.mp hx with rfl | hx2
      · exact hpc
      · exact hall x hx2

theorem pyGet_ok {α : Type} (l : List α) (i : Int) (h0 : 0 ≤ i) (h1 : i.toNat < l.length) :
    ∃ a, pyGet l i = .ok a := by
  unfold pyGet
  rw [if_neg (not_lt.mpr h0)]
  rcases hg : l[i.toNat]? with _ | a
  · rw [List.getElem?_eq_none_iff] at hg
    omega
  · exact ⟨a, by simp [hg, h0]⟩

/-- Without poles and without azimuthal wrap-around, the hive has exactly
`(len(spheres)-1) * (len(thetas)-1) * (len(phis)-1)` cell prototypes. -/
theorem hiveCellProtos_length (RRs TTs PPs : List ℚ) (spheresN thetasN phisN : List Str) :
    (hiveCellProtos RRs TTs PPs spheresN thetasN phisN false false false).length
      = (spheresN.length - 1) * ((thetasN.length - 1) * (phisN.length - 1)) := by
  unfold hiveCellProtos
  simp only [Bool.false_eq_true, if_false, List.append_nil, List.nil_append,
    List.length_flatMap]
  trans ((List.range' 1 (spheresN.length - 1)).map
    (fun _ => (thetasN.length - 1) * (phisN.length - 1))).sum
  · refine congrArg List.sum (List.map_congr_left ?_)
    intro iR _
    simp only [Function.comp_apply, List.length_flatMap]
    trans ((List.range' 1 (thetasN.length - 1)).map (fun _ => phisN.length - 1)).sum
    · refine congrArg List.sum (List.map_congr_left ?_)
      intro iT _
      simp only [Function.comp_apply, List.length_map, List.length_range']
    · rw [List.map_const', List.sum_replicate, smul_eq_mul, List.length_range']
  · rw [List.map_const', List.sum_replicate, smul_eq_mul, List.length_range']

end HiveCellLemmas

/-- Two sequential `Except` binds of successful computations feeding a
pure result. -/
theorem bind2_ok {α β γ : Type} (x : Except PyErr α) (y : Except PyErr β) (a : α) (b : β)
    (hx : x = .ok a) (hy : y = .ok b) (f : α → β → γ) :
    (do
      let xa ← x
      let yb ← y
      Except.ok (f xa yb)) = .ok (f a b) := by
  subst hx
  subst hy
  rfl

/-- Without poles and wrap-around, every cell prototype's max-length
computation succeeds as long as the theta mesh is not longer than the phi
mesh (the source indexes `PPs` with the theta index). -/
theorem hiveCellProtos_snd_ok (RRs TTs PPs : List ℚ) (spheresN thetasN phisN : List Str)
    (hlen : thetasN.length ≤ PPs.length) :
    ∀ pr ∈ hiveCellProtos RRs TTs PPs spheresN thetasN phisN false false false,
      ∃ r, pr.2 = .ok r := by
  intro pr hpr
  unfold hiveCellProtos at hpr
  simp only [Bool.false_eq_true, if_false, List.append_nil, List.nil_append,
    List.mem_flatMap, List.mem_map, List.mem_range'] at hpr
  obtain ⟨iR, -, iT, ⟨i, hi, hiT⟩, iP, -, hpr⟩ := hpr
  have hiT2 : 1 ≤ iT ∧ iT ≤ thetasN.length - 1 := by omega
  have h0 : ((iT : Int)).toNat < PPs.length := by omega
  have h1 : (((iT : Int)) - 1).toNat < PPs.length := by omega
  obtain ⟨pT, hpT⟩ := pyGet_ok PPs (iT : Int) (by omega) h0
  obtain ⟨pT1, hpT1⟩ := pyGet_ok PPs ((iT : Int) - 1) (by omega) h1
  subst hpr
  exact ⟨_, bind2_ok _ _ _ _ hpT hpT1 _⟩

/-- A cell region is successfully built (with `rCont = 1` and an
`HVCL`-prefixed name) whenever its grid location exists and its
max-length computation succeeds. -/
theorem hiveCellRegion_ok (cg : ShellGrid) (defMat : Str) (iHive : Nat)
    (pr : Str × Except PyErr ℝ) (hloc : iHive < cg.locs.length) (hr : ∃ r, pr.2 = .ok r) :
    ∃ c, hiveCellRegion cg defMat iHive pr = .ok c ∧ c.rCont = 1 ∧
      leadsWith "HVCL".toList c.name = true := by
  obtain ⟨rml, hrml⟩ := hr
  unfold hiveCellRegion gridRetPoint
  rw [List.get?_eq_getElem?, List.getElem?_eq_getElem hloc, hrml]
  refine ⟨_, rfl, ?_, ?_⟩
  · rw [initContW_rCont]
  · rw [initContW_name, addZone_name, assignMat_name, region_rename_name]
    exact leadsWith_self_append _ _

theorem mk0_rCont (n : Str) : (Region.mk0 n).rCont = 0 := rfl

/-- `DefineHive_SphericalShell`, general shape for a grid without poles
and a hive without azimuthal wrap-around: the construction succeeds and
produces exactly `(len(RRs)-1) * (len(TTs)-1) * (len(PPs)-1)` container
cell regions (`rCont = 1`), all named with the `HVCL` prefix — the mesh
lists being the *hive* boundary meshes (`NR+1`, `NT+1`, `NP+1` points for
in-range inputs), not the grid meshes. -/
theorem defineHive_no_poles_count (Rmin Rmax : ℚ) (NR NT NP : Int)
    (Tmin Tmax Pmin Pmax : ℚ) (defMat tmpTitle : Str) (sg : ShellGrid) (hv : SphHive)
    (hs : sphericalShell Rmin Rmax NR Tmin Tmax NT Pmin Pmax NP = .ok sg)
    (hh : sphericalHive Rmin Rmax NR Tmin Tmax NT Pmin Pmax NP = .ok hv)
    (hpole : sg.HasPoles = (false, false)) (hwrap : hv.PhiCovers2pi = false)
    (hTP : hv.TTs.length ≤ hv.PPs.length)
    (hloc : (hv.RRs.length - 1) * ((hv.TTs.length - 1) * (hv.PPs.length - 1))
      ≤ sg.locs.length) :
    ∃ g, defineHiveSphericalShell Rmin Rmax NR Tmin Tmax NT Pmin Pmax NP defMat tmpTitle
        = .ok g ∧
      (g.regs.filter (fun r => decide (r.rCont = 1))).length
        = (hv.RRs.length - 1) * ((hv.TTs.length - 1) * (hv.PPs.length - 1)) ∧
      ∀ r ∈ g.regs.filter (fun r => decide (r.rCont = 1)),
        leadsWith "HVCL".toList r.name = true := by
  have hsphN : ((hiveSpheres hv.RRs).map (fun b => b.name)).length = hv.RRs.length := by
    simp [hiveSpheres, List.enum_length]
  have hthN : ((hiveThetas hv.RRs hv.TTs hv.ThetaCoversPi).map (fun b => b.name)).length
      = hv.TTs.length := by
    simp [hiveThetas, List.enum_length]
  have hphN : ((hivePhis hv.PPs).map (fun b => b.name)).length = hv.PPs.length := by
    simp [hivePhis, List.enum_length]
  have hplen : (hiveCellProtos hv.RRs hv.TTs hv.PPs
      ((hiveSpheres hv.RRs).map (fun b => b.name))
      ((hiveThetas hv.RRs hv.TTs hv.ThetaCoversPi).map (fun b => b.name))
      ((hivePhis hv.PPs).map (fun b => b.name)) false false false).length
      = (hv.RRs.length - 1) * ((hv.TTs.length - 1) * (hv.PPs.length - 1)) := by
    rw [hiveCellProtos_length, hsphN, hthN, hphN]
  obtain ⟨cells, hcmap, hclen, hcall⟩ := mapME_count
    (fun it => hiveCellRegion sg defMat it.1 it.2)
    (hiveCellProtos hv.RRs hv.TTs hv.PPs
      ((hiveSpheres hv.RRs).map (fun b => b.name))
      ((hiveThetas hv.RRs hv.TTs hv.ThetaCoversPi).map (fun b => b.name))
      ((hivePhis hv.PPs).map (fun b => b.name)) false false false).enum
    (fun c => c.rCont = 1 ∧ leadsWith "HVCL".toList c.name = true)
    (by
      intro it hit
      have hidx : it.1 < sg.locs.length := by
        have h1 := List.mem_enum_iff_get?.mp hit
        have h2 : it.1 < (hiveCellProtos hv.RRs hv.TTs hv.PPs
            ((hiveSpheres hv.RRs).map (fun b => b.name))
            ((hiveThetas hv.RRs hv.TTs hv.ThetaCoversPi).map (fun b => b.name))
            ((hivePhis hv.PPs).map (fun b => b.name)) false false false).length := by
          by_contra hcon
          rw [List.get?_eq_none.mpr (by omega)] at h1
          exact Option.noConfusion h1
        omega
      have hmem : it.2 ∈ hiveCellProtos hv.RRs hv.TTs hv.PPs
          ((hiveSpheres hv.RRs).map (fun b => b.name))
          ((hiveThetas hv.RRs hv.TTs hv.ThetaCoversPi).map (fun b => b.name))
          ((hivePhis hv.PPs).map (fun b => b.name)) false false false := by
        have h1 := List.mem_enum_iff_get?.mp hit
        exact List.get?_mem h1
      obtain ⟨c, hc, h1, h2⟩ := hiveCellRegion_ok sg defMat it.1 it.2 hidx
        (hiveCellProtos_snd_ok hv.RRs hv.TTs hv.PPs _ _ _ (by rw [hthN]; exact hTP)
          it.2 hmem)
      exact ⟨c, hc, h1, h2⟩)
  unfold defineHiveSphericalShell
  rw [hs, hh]
  simp only [Except.bind, bind]
  rw [hpole]
  dsimp only
  rw [hwrap, hcmap]
  have hfilter_cells : List.filter (fun r => decide (r.rCont = 1)) cells = cells :=
    List.filter_eq_self.mpr (fun c hc => decide_eq_true (hcall c hc).1)
  refine ⟨_, rfl, ?_, ?_⟩
  · rw [List.filter_append, List.length_append, hfilter_cells, hclen, List.enum_length,
      hplen]
    simp [List.filter_cons, apply_ite (fun r : Region => r.rCont),
      apply_ite (List.filter (fun r : Region => decide (r.rCont = 1))),
      addZone_rCont, assignMat_rCont, Region.rename_rCont, mk0_rCont, initContW_rCont]
  · intro r hr
    rw [List.filter_append, List.mem_append] at hr
    rcases hr with hr | hr
    · exfalso
      simp [List.filter_cons, apply_ite (fun r : Region => r.rCont),
        apply_ite (List.filter (fun r : Region => decide (r.rCont = 1))),
        addZone_rCont, assignMat_rCont, Region.rename_rCont, mk0_rCont,
        initContW_rCont] at hr
    · rw [hfilter_cells] at hr
      exact (hcall r hr).2

/-- Without poles the location loop keeps the full azimuth mesh in every
row. -/
theorem shellLocsE_ok_noPoles (RRs TTs PPs : List ℚ) :
    shellLocsE RRs TTs PPs false false
      = .ok (RRs.map (fun r => TTs.enum.map (fun it => PPs.map (fun p => mkLocVal r it.2 p)))) := by
  unfold shellLocsE
  apply mapME_eq_map
  intro r _
  apply mapME_eq_map
  intro it _
  have hc : ¬ ((it.1 = 0 ∧ false = true) ∨ (it.1 = TTs.length - 1 ∧ false = true)) := by
    simp
  rw [if_neg hc]
  show mapME (fun p => mkLocE r it.2 p) PPs = _
  exact mapME_eq_map _ _ _ (fun p _ => mkLocE_ok r it.2 p)

/-- `SphericalShell.__init__` when neither mesh end sits on a pole: both
flags are false and every (r, theta) row holds one location per azimuth
value. -/
theorem sphericalShell_no_poles (Rmin Rmax : ℚ) (NR NT NP : Int) (Tmin Tmax Pmin Pmax : ℚ)
    (hRle : Rmin ≤ Rmax) (hTle : Tmin ≤ Tmax) (hPle : Pmin ≤ Pmax)
    (hR0 : 0 < Rmin) (hTlo : -90 ≤ Tmin) (hThi : Tmax ≤ 90)
    (hPlo : -180 ≤ Pmin) (hPhi : Pmax ≤ 180) (hsp : Pmax - Pmin ≠ 360)
    (hNR : 0 < NR) (hNT : 0 ≤ NT) (hNP : 0 ≤ NP)
    (hTne : linspace (meanCollapse Tmin Tmax NT).1 (meanCollapse Tmin Tmax NT).2 NT.toNat
      ≠ [])
    (hhead : (linspace (meanCollapse Tmin Tmax NT).1 (meanCollapse Tmin Tmax NT).2
      NT.toNat).headD 0 ≠ -90)
    (hlast : (linspace (meanCollapse Tmin Tmax NT).1 (meanCollapse Tmin Tmax NT).2
      NT.toNat).getLastD 0 ≠ 90) :
    sphericalShell Rmin Rmax NR Tmin Tmax NT Pmin Pmax NP
      = .ok ⟨(((linspace (meanCollapse Rmin Rmax NR).1 (meanCollapse Rmin Rmax NR).2
            NR.toNat).map
          (fun r => (linspace (meanCollapse Tmin Tmax NT).1 (meanCollapse Tmin Tmax NT).2
              NT.toNat).enum.map
            (fun it => (linspace (meanCollapse Pmin Pmax NP).1 (meanCollapse Pmin Pmax NP).2
                NP.toNat).map
              (fun p => mkLocVal r it.2 p)))).map
          List.flatten).flatten,
        (false, false)⟩ := by
  unfold sphericalShell
  rw [checkSphericalRange_ok _ _ _ _ _ _ _ _ _ hRle hTle hPle hR0 hTlo hThi hPlo hPhi hsp
    hNR hNT hNP]
  simp only [Except.bind, bind]
  rw [if_neg hTne, decide_eq_false hhead, decide_eq_false hlast, shellLocsE_ok_noPoles]

/-- Location count of the no-pole shell: `NR * NT * NP`. -/
theorem shell_noPoles_length (RRs TTs PPs : List ℚ) :
    (((RRs.map (fun r => TTs.enum.map (fun it => PPs.map (fun p => mkLocVal r it.2 p)))).map
        List.flatten).flatten).length = RRs.length * (TTs.length * PPs.length) := by
  rw [List.length_flatten, List.map_map, List.map_map]
  trans (RRs.map (fun _ => TTs.length * PPs.length)).sum
  · refine congrArg List.sum (List.map_congr_left ?_)
    intro r _
    simp only [Function.comp_apply, List.length_flatten, List.map_map]
    trans (TTs.enum.map (fun _ => PPs.length)).sum
    · refine congrArg List.sum (List.map_congr_left ?_)
      intro it _
      simp only [Function.comp_apply, List.length_map]
    · rw [List.map_const', List.sum_replicate, smul_eq_mul, List.enum_length]
  · rw [List.map_const', List.sum_replicate, smul_eq_mul]

/-- The hive meshes at the C3 parameters: three padded radial boundaries
and five boundaries each in theta and phi (`NR+1`, `NT+1`, `NP+1`). -/
theorem hiveC3_value :
    sphericalHive 75 125 2 (-20) 20 4 (-10) 10 4
      = .ok ⟨false, false, [50, 100, 150], [-80/3, -40/3, 0, 40/3, 80/3],
             [-40/3, -20/3, 0, 20/3, 40/3]⟩ := by
  have hchk : checkSphericalRange 75 125 2 (-20) 20 4 (-10) 10 4
      = .ok (75, 125, 2, -20, 20, 4, -10, 10, 4) := by
    unfold checkSphericalRange
    norm_num
  have hrp : hiveRadial 75 125 2 2 = (50, 150) := by
    unfold hiveRadial
    norm_num [Prod.ext_iff]
  have htp : hiveTheta (-20) 20 4 = (-80/3, 80/3, 4) := by
    unfold hiveTheta
    norm_num [Prod.ext_iff]
  have hpp : hivePhiPad (-10) 10 4 = (20/3, -40/3, 40/3) := by
    unfold hivePhiPad
    norm_num [Prod.ext_iff]
  have hsm : hivePhiSeam (20/3) (-40/3) (40/3) 4 = .ok (false, 40/3, 4) := by
    unfold hivePhiSeam
    norm_num
  have hR : linspace 50 150 ((2 : Int) + 1).toNat = [50, 100, 150] := by
    rw [show ((2 : Int) + 1).toNat = 3 from rfl, linspace,
      show List.range 3 = [0, 1, 2] from rfl]
    simp only [List.map_cons, List.map_nil]
    norm_num
  have hT : linspace (-80/3 : ℚ) (80/3) ((4 : Int) + 1).toNat
      = [-80/3, -40/3, 0, 40/3, 80/3] := by
    rw [show ((4 : Int) + 1).toNat = 5 from rfl, linspace,
      show List.range 5 = [0, 1, 2, 3, 4] from rfl]
    simp only [List.map_cons, List.map_nil]
    norm_num
  have hP : linspace (-40/3 : ℚ) (40/3) ((4 : Int) + 1).toNat
      = [-40/3, -20/3, 0, 20/3, 40/3] := by
    rw [show ((4 : Int) + 1).toNat = 5 from rfl, linspace,
      show List.range 5 = [0, 1, 2, 3, 4] from rfl]
    simp only [List.map_cons, List.map_nil]
    norm_num
  have hTne : linspace (-80/3 : ℚ) (80/3) ((4 : Int) + 1).toNat ≠ [] := by
    rw [hT]
    simp
  unfold sphericalHive
  rw [hchk]
  simp only [Except.bind, bind]
  rw [hrp, htp, hpp]
  dsimp only
  rw [hsm]
  simp only [Except.bind, bind]
  rw [if_neg hTne, hR, hT, hP]
  norm_num [List.getLastD, List.headD]

/-- The cell grid at the C3 parameters: no poles, and `2 * 4 * 4 = 32`
locations. -/
theorem shellC3_value :
    ∃ sg, sphericalShell 75 125 2 (-20) 20 4 (-10) 10 4 = .ok sg ∧
      sg.HasPoles = (false, false) ∧ sg.locs.length = 32 := by
  have hmcT : meanCollapse (-20 : ℚ) 20 4 = (-20, 20) := by
    unfold meanCollapse
    norm_num [Prod.ext_iff]
  have hT4 : linspace (-20 : ℚ) 20 (4 : Int).toNat = [-20, -20/3, 20/3, 20] := by
    rw [show ((4 : Int)).toNat = 4 from rfl, linspace,
      show List.range 4 = [0, 1, 2, 3] from rfl]
    simp only [List.map_cons, List.map_nil]
    norm_num
  have hTne : linspace (meanCollapse (-20 : ℚ) 20 4).1 (meanCollapse (-20 : ℚ) 20 4).2
      (4 : Int).toNat ≠ [] := by
    rw [hmcT]
    dsimp only
    rw [hT4]
    simp
  have hhead : (linspace (meanCollapse (-20 : ℚ) 20 4).1 (meanCollapse (-20 : ℚ) 20 4).2
      (4 : Int).toNat).headD 0 ≠ -90 := by
    rw [hmcT]
    dsimp only
    rw [hT4]
    norm_num
  have hlast : (linspace (meanCollapse (-20 : ℚ) 20 4).1 (meanCollapse (-20 : ℚ) 20 4).2
      (4 : Int).toNat).getLastD 0 ≠ 90 := by
    rw [hmcT]
    dsimp only
    rw [hT4]
    norm_num [List.getLastD]
  refine ⟨_, sphericalShell_no_poles 75 125 2 4 4 (-20) 20 (-10) 10 (by norm_num)
    (by norm_num) (by norm_num) (by norm_num) (by norm_num) (by norm_num) (by norm_num)
    (by norm_num) (by norm_num) (by norm_num) (by norm_num) (by norm_num)
    hTne hhead hlast, rfl, ?_⟩
  show (((linspace _ _ _).map _).map List.flatten).flatten.length = 32
  rw [shell_noPoles_length, linspace_length, linspace_length, linspace_length]
  rfl

/-- C3 counterexample: at the claim's parameters the hive construction
yields 32 inner cell regions, not `(NR)*(NT-1)*(NP-1) = 18`: the cell
loops run over the *hive* boundary lists (`NR+1`, `NT+1`, `NP+1` points),
one cell per pair of consecutive boundaries, i.e. `NR * NT * NP` cells. -/
theorem C3_counterexample :
    ∃ g, defineHiveSphericalShell 75 125 2 (-20) 20 4 (-10) 10 4 "VACUUM".toList
        "Hive for a spherical shell".toList = .ok g ∧
      (g.regs.filter (fun r => decide (r.rCont = 1))).length ≠ 2 * (4 - 1) * (4 - 1) := by
  obtain ⟨sg, hs, hpole, hslen⟩ := shellC3_value
  obtain ⟨g, hg, hcount, -⟩ := defineHive_no_poles_count 75 125 2 4 4 (-20) 20 (-10) 10
    "VACUUM".toList "Hive for a spherical shell".toList sg _ hs hiveC3_value hpole rfl
    (by norm_num) (by rw [hslen]; norm_num)
  refine ⟨g, hg, ?_⟩
  rw [hcount]
  norm_num

/-- C3 (amended): at the claim's parameters (no poles, no wrap-around)
the spherical-shell hive geometry holds exactly `NR * NT * NP = 32` inner
cell regions — one per pair of consecutive hive boundaries in each
coordinate — every one an `HVCL`-prefixed container (`rCont = 1`) with a
reference centre taken from the grid and a max-internal-length. -/
theorem C3_hive_cell_count :
    ∃ g, defineHiveSphericalShell 75 125 2 (-20) 20 4 (-10) 10 4 "VACUUM".toList
        "Hive for a spherical shell".toList = .ok g ∧
      (g.regs.filter (fun r => decide (r.rCont = 1))).length = 2 * 4 * 4 ∧
      ∀ r ∈ g.regs.filter (fun r => decide (r.rCont = 1)),
        leadsWith "HVCL".toList r.name = true := by
  obtain ⟨sg, hs, hpole, hslen⟩ := shellC3_value
  obtain ⟨g, hg, hcount, hnames⟩ := defineHive_no_poles_count 75 125 2 4 4 (-20) 20 (-10) 10
    "VACUUM".toList "Hive for a spherical shell".toList sg _ hs hiveC3_value hpole rfl
    (by norm_num) (by rw [hslen]; norm_num)
  refine ⟨g, hg, ?_, hnames⟩
  rw [hcount]
  norm_num

/-! ## `myMath.RotMat.GetGimbalAngles` and the compose/decompose round
trip -/

/-- `np.arctan2(y, x)`: the angle of the point `(x, y)`, in `(-pi, pi]`
(the argument of the complex number `x + y*i`). -/
noncomputable def arctan2 (y x : ℝ) : ℝ := Complex.arg ⟨x, y⟩

/-- `RotMat.GetGimbalAngles`: read the matrix as `Rx*Ry*Rz` and extract
`ang_x = arctan2(-M[1,2], M[2,2])`, `ang_y = arcsin(M[0,2])`,
`ang_z = arctan2(-M[0,1], M[0,0])` (in degrees when `lDegs`). -/
noncomputable def getGimbalAngles (M : Mat3 ℝ) (lDegs : Bool) : ℝ × ℝ × ℝ :=
  let t0 := arctan2 (-M.m12) M.m22
  let t1 := Real.arcsin M.m02
  let t2 := arctan2 (-M.m01) M.m00
  if lDegs then (degOf t0, degOf t1, degOf t2) else (t0, t1, t2)

theorem rotFill_one (t : ℝ) : rotFill t 1 = rotX t := by
  by_cases h : t = 0
  · subst h
    rw [rotFill, if_pos rfl]
    norm_num [unit3, rotX]
  · rw [rotFill, if_neg h, if_pos rfl]

theorem rotFill_two (t : ℝ) : rotFill t 2 = rotY t := by
  by_cases h : t = 0
  · subst h
    rw [rotFill, if_pos rfl]
    norm_num [unit3, rotY]
  · rw [rotFill, if_neg h, if_neg (by norm_num), if_pos rfl]

theorem rotFill_three (t : ℝ) : rotFill t 3 = rotZ t := by
  by_cases h : t = 0
  · subst h
    rw [rotFill, if_pos rfl]
    norm_num [unit3, rotZ]
  · rw [rotFill, if_neg h, if_neg (by norm_num), if_neg (by norm_num)]

/-- The concatenation of `[c, b, a]` on axes `[3, 2, 1]` is the product
`Rx(a)*Ry(b)*Rz(c)` — the decomposition pattern of `GetGimbalAngles`. -/
theorem concatRot_zyx (a b c : ℝ) :
    concatRotE [c, b, a] [3, 2, 1] true
      = .ok ((rotFill (rad a) 1).mulMat ((rotFill (rad b) 2).mulMat
          ((rotFill (rad c) 3).mulMat (unit3 ℝ)))) := by
  have h3 : rotMatE c 3 true = .ok (rotFill (rad c) 3) := by
    unfold rotMatE
    norm_num
  have h2 : rotMatE b 2 true = .ok (rotFill (rad b) 2) := by
    unfold rotMatE
    norm_num
  have h1 : rotMatE a 1 true = .ok (rotFill (rad a) 1) := by
    unfold rotMatE
    norm_num
  unfold concatRotE
  simp [mapME, h1, h2, h3, Except.bind, bind, List.foldl]

/-- The explicit entries of `Rx(x)*Ry(y)*Rz(z)` (the matrix shown in the
`GetGimbalAngles` docstring). -/
theorem rot_zyx_entries (x y z : ℝ) :
    (rotFill x 1).mulMat ((rotFill y 2).mulMat ((rotFill z 3).mulMat (unit3 ℝ)))
      = ⟨Real.cos z * Real.cos y, -(Real.sin z * Real.cos y), Real.sin y,
         Real.cos x * Real.sin z + Real.sin x * Real.sin y * Real.cos z,
         Real.cos x * Real.cos z - Real.sin x * Real.sin y * Real.sin z,
         -(Real.sin x * Real.cos y),
         Real.sin x * Real.sin z - Real.cos x * Real.sin y * Real.cos z,
         Real.sin x * Real.cos z + Real.cos x * Real.sin y * Real.sin z,
         Real.cos x * Real.cos y⟩ := by
  rw [rotFill_one, rotFill_two, rotFill_three]
  unfold Mat3.mulMat unit3 rotX rotY rotZ
  simp only [Mat3.mk.injEq]
  refine ⟨?_, ?_, ?_, ?_, ?_, ?_, ?_, ?_, ?_⟩ <;> ring

/-- For a positive radius and an angle in `(-pi, pi]`, `arctan2` recovers
the angle. -/
theorem arctan2_cos_sin (r θ : ℝ) (hr : 0 < r) (hθ : θ ∈ Set.Ioc (-Real.pi) Real.pi) :
    arctan2 (Real.sin θ * r) (Real.cos θ * r) = θ := by
  unfold arctan2
  rw [Complex.mk_eq_add_mul_I]
  have hz : ((Real.cos θ * r : ℝ) : ℂ) + ((Real.sin θ * r : ℝ) : ℂ) * Complex.I
      = (r : ℝ) * (Real.cos θ + Real.sin θ * Complex.I) := by
    push_cast
    ring
  rw [hz, Complex.arg_real_mul _ hr, Complex.ofReal_cos, Complex.ofReal_sin,
    Complex.arg_cos_add_sin_mul_I hθ]

theorem degOf_rad (x : ℝ) : degOf (rad x) = x := by
  unfold degOf rad
  field_simp

/-- The `[0, 2]` entry of the product `Rz(z)*Ry(y)*Rx(x)` (the order
actually built by `ConcatenatedRotMatrices` for axes `[1, 2, 3]`). -/
theorem rot_xyz_m02 (x y z : ℝ) :
    ((rotFill z 3).mulMat ((rotFill y 2).mulMat ((rotFill x 1).mulMat (unit3 ℝ)))).m02
      = Real.cos z * (Real.sin y * Real.cos x) + Real.sin z * Real.sin x := by
  rw [rotFill_one, rotFill_two, rotFill_three]
  unfold Mat3.mulMat unit3 rotX rotY rotZ
  dsimp only
  ring

/-- C6 counterexample: composing the angles `[90, 45, 0]` on axes
`[1, 2, 3]` and decomposing the result does *not* return the middle angle
`45`: `ConcatenatedRotMatrices` puts the *last* pair leftmost, so axes
`[1, 2, 3]` build `Rz*Ry*Rx`, while `GetGimbalAngles` reads the matrix as
`Rx*Ry*Rz`; here the decomposed middle angle is `0`. -/
theorem C6_counterexample :
    (concatRotE [90, 45, 0] [1, 2, 3] true).map (fun M => (getGimbalAngles M true).2.1)
      = .ok 0 ∧ (0 : ℝ) ≠ 45 := by
  constructor
  · have h1 : rotMatE 90 1 true = .ok (rotFill (rad 90) 1) := by
      unfold rotMatE
      norm_num
    have h2 : rotMatE 45 2 true = .ok (rotFill (rad 45) 2) := by
      unfold rotMatE
      norm_num
    have h3 : rotMatE 0 3 true = .ok (rotFill (rad 0) 3) := by
      unfold rotMatE
      norm_num
    have hM : concatRotE [90, 45, 0] [1, 2, 3] true
        = .ok ((rotFill (rad 0) 3).mulMat ((rotFill (rad 45) 2).mulMat
            ((rotFill (rad 90) 1).mulMat (unit3 ℝ)))) := by
      unfold concatRotE
      simp [mapME, h1, h2, h3, Except.bind, bind, List.foldl]
    rw [hM]
    simp only [Except.map, getGimbalAngles]
    rw [rot_xyz_m02]
    have hzero : Real.cos (rad 0) * (Real.sin (rad 45) * Real.cos (rad 90))
        + Real.sin (rad 0) * Real.sin (rad 90) = 0 := by
      have hc90 : Real.cos (rad 90) = 0 := by
        rw [show rad 90 = Real.pi / 2 by unfold rad; ring]
        exact Real.cos_pi_div_two
      have hs0 : Real.sin (rad 0) = 0 := by
        rw [show rad 0 = 0 by unfold rad; ring]
        exact Real.sin_zero
      rw [hc90, hs0]
      ring
    rw [hzero, Real.arcsin_zero]
    unfold degOf
    norm_num
  · norm_num

/-- C6 (amended): the compose/decompose round trip holds for the axis
sequence `[3, 2, 1]` (z, then y, then x — which the concatenation's
last-pair-leftmost order turns into the matrix `Rx*Ry*Rz` that
`GetGimbalAngles` analyses), for angles in the documented ranges and away
from gimbal lock: `GetGimbalAngles(Concat([c, b, a], [3, 2, 1]))
= (a, b, c)`.  For axes `[1, 2, 3]` the round trip fails (see the
counterexample). -/
theorem C6_roundtrip_zyx (a b c : ℝ)
    (ha1 : -180 < a) (ha2 : a ≤ 180) (hb1 : -90 < b) (hb2 : b < 90)
    (hc1 : -180 < c) (hc2 : c ≤ 180) :
    (concatRotE [c, b, a] [3, 2, 1] true).map (fun M => getGimbalAngles M true)
      = .ok (a, b, c) := by
  have hbIoo : rad b ∈ Set.Ioo (-(Real.pi / 2)) (Real.pi / 2) := by
    constructor
    · unfold rad
      nlinarith [mul_pos (show (0 : ℝ) < b + 90 by linarith) Real.pi_pos]
    · unfold rad
      nlinarith [mul_pos (show (0 : ℝ) < 90 - b by linarith) Real.pi_pos]
  have hcb : 0 < Real.cos (rad b) := Real.cos_pos_of_mem_Ioo hbIoo
  have hIa : rad a ∈ Set.Ioc (-Real.pi) Real.pi := by
    constructor
    · unfold rad
      nlinarith [mul_pos (show (0 : ℝ) < a + 180 by linarith) Real.pi_pos]
    · unfold rad
      nlinarith [mul_nonneg (show (0 : ℝ) ≤ 180 - a by linarith) Real.pi_pos.le]
  have hIc : rad c ∈ Set.Ioc (-Real.pi) Real.pi := by
    constructor
    · unfold rad
      nlinarith [mul_pos (show (0 : ℝ) < c + 180 by linarith) Real.pi_pos]
    · unfold rad
      nlinarith [mul_nonneg (show (0 : ℝ) ≤ 180 - c by linarith) Real.pi_pos.le]
  rw [concatRot_zyx, rot_zyx_entries]
  simp only [Except.map, getGimbalAngles]
  rw [neg_neg, neg_neg,
    arctan2_cos_sin (Real.cos (rad b)) (rad a) hcb hIa,
    arctan2_cos_sin (Real.cos (rad b)) (rad c) hcb hIc,
    Real.arcsin_sin hbIoo.1.le hbIoo.2.le,
    degOf_rad, degOf_rad, degOf_rad, if_pos trivial]

/-- Witness for the amended C6 at `(a, b, c) = (90, 45, 0)`. -/
theorem C6_witness :
    (concatRotE [0, 45, 90] [3, 2, 1] true).map (fun M => getGimbalAngles M true)
      = .ok (90, 45, 0) :=
  C6_roundtrip_zyx 90 45 0 (by norm_num) (by norm_num) (by norm_num) (by norm_num)
    (by norm_num) (by norm_num)
